import Mathlib

/-!
Verification development for the Fractal compiler (SteliosKem/Fractal).

Shallow embedding of the compiler's core data structures and algorithms:
the type model (src/Fractal/Lexer/Type.h), the lexer's whitespace/comment
scanning (src/Fractal/Lexer/Lexer.cpp), the semantic analyzer
(src/Fractal/Analysis/SemanticAnalyzer.cpp) and the code generator with
its legalization pass (src/Fractal/CodeGeneration/CodeGenerator.cpp,
src/Fractal/CodeGeneration/Instructions.h).

C++ classes with a closed set of subclasses are embedded as inductive
types; `std::shared_ptr` trees as plain inductive trees; the mutation the
analyzer and generator perform on shared AST nodes is embedded by
returning the updated node next to the ordinary result; member state
(`m_...` fields) is threaded as an explicit state record.  Machine
integers are embedded as `Int`/`Nat`: none of the verified paths can
overflow an `int64_t`/`uint64_t` counter.
-/

namespace Fractal

/-! ## Type model (src/Fractal/Lexer/Type.h) -/

/-- `enum class BasicType` (Type.h lines 10-20). -/
inductive BasicType
  | none | null | i32 | i64 | f32 | f64 | user | string | character
deriving DecidableEq, Repr

/-- The `Type` class hierarchy (Type.h lines 48-123): variants are
`FundamentalType`, `UserDefinedType`, `PointerType`, `ArrayType`,
`FunctionType`, `EmptyType`, each identified by its `typeInfo()` tag. -/
inductive Ty
  | fundamental (basic : BasicType)
  | userDefined (name : String)
  | pointer (pointing : Ty)
  | array (element : Ty)
  | function (returnType : Ty) (parameterTypes : List Ty)
  | empty

mutual

/-- `sameType` (Type.h lines 125-144), embedded exactly as written, with
the `for` loop over the parameter vectors as the mutual `sameParams`.

The C++ first compares `typeInfo()` tags, then switches on the tag.  The
`Function` case runs its three checks but its block does not return on
success and has no `break`, so control falls through into
`default: return false;`; the `Empty` tag has no case at all and also
reaches `default`.  The trailing `return true;` of the C++ function is
unreachable.  The embedding mirrors that flow: the function case yields
`false` after all three checks pass, and the empty/empty case yields
`false`. -/
def sameType : Ty → Ty → Bool
  | Ty.fundamental a, Ty.fundamental b => a == b
  | Ty.userDefined a, Ty.userDefined b => a == b
  | Ty.array a, Ty.array b => sameType a b
  | Ty.pointer a, Ty.pointer b => sameType a b
  | Ty.function ra pa, Ty.function rb pb =>
      if !sameType ra rb then false
      else if pa.length != pb.length then false
      else if !sameParams pa pb then false
      else false  -- C++ falls through into the default arm: `return false`
  | Ty.empty, Ty.empty => false  -- no `Empty` case in the switch: default arm
  | _, _ => false  -- differing typeInfo tags (line 126)

/-- The loop in `sameType`'s `Function` case (Type.h lines 138-139): tests
`sameType` on the parameter pairs in order, `false` on the first mismatch.
It is reached only with equal lengths. -/
def sameParams : List Ty → List Ty → Bool
  | a :: as, b :: bs => if !sameType a b then false else sameParams as bs
  | _, _ => true

end

mutual

/-- What the spec calls structural equality (spec §3 "Structural equality:
two types are equal iff same variant and recursively equal children;
function types require equal arity and pairwise-equal parameter types").
Written from the spec's words, to compare against `sameType`. -/
def specStructuralEq : Ty → Ty → Bool
  | Ty.fundamental a, Ty.fundamental b => a == b
  | Ty.userDefined a, Ty.userDefined b => a == b
  | Ty.array a, Ty.array b => specStructuralEq a b
  | Ty.pointer a, Ty.pointer b => specStructuralEq a b
  | Ty.function ra pa, Ty.function rb pb =>
      specStructuralEq ra rb && pa.length == pb.length && specParamsEq pa pb
  | Ty.empty, Ty.empty => true
  | _, _ => false

def specParamsEq : List Ty → List Ty → Bool
  | a :: as, b :: bs => specStructuralEq a b && specParamsEq as bs
  | _, _ => true

end

/-! ## Lexer whitespace handling (src/Fractal/Lexer/Lexer.cpp) -/

/-- The character the lexer's cursor sees at index `i`: `advance`
(Lexer.cpp lines 38-50) loads `source[i]` while `i < source.size()` and
the NUL character once the index passes the end. -/
def charAt (source : List Char) (i : Nat) : Char :=
  if h : i < source.length then source.get ⟨i, h⟩ else Char.ofNat 0

/-- The condition of the single-line-comment loop in `handleWhitespace`
(Lexer.cpp line 98): `currentCharacter() != '\n' || currentCharacter() == '\0'`.
The loop body is a bare `advance()`, which moves the cursor one index to
the right; the loop exits only when this condition turns false. -/
def singleLineCommentCond (c : Char) : Bool :=
  c != Char.ofNat 10 || c == Char.ofNat 0

/-! ## IR operands and instructions

From src/Fractal/CodeGeneration/Instructions.h.  The checked-in header is
stale: it lacks the `Call` and `Push` instruction classes and the
registers `CX DI SI BP SP R8`, all of which CodeGenerator.cpp and
IntelCodeEmission.cpp use.  Those two constructors and the full register
set are modelled from the spec (§3 "IR": `Instruction` variants include
Call (callee name) and Push; `Register ∈
{AX,BX,CX,DX,DI,SI,BP,SP,R8,R9,R10,R11}`). -/

/-- `enum class Size : uint8_t { Byte=1, Word=2, DWord=4, QWord=8 }`. -/
inductive Size
  | byte | word | dword | qword
deriving DecidableEq, Repr

/-- The numeric value of a `Size` enumerator, used wherever the C++
compares or casts the enum (`(int)size`). -/
def Size.toNat : Size → Nat
  | Size.byte => 1
  | Size.word => 2
  | Size.dword => 4
  | Size.qword => 8

/-- Modelled from the spec: the register set (§3), of which Instructions.h
retains only a stale subset. -/
inductive Reg
  | ax | bx | cx | dx | di | si | bp | sp | r8 | r9 | r10 | r11
deriving DecidableEq, Repr

/-- The `Operand` class hierarchy (Instructions.h lines 67-106):
`IntegerConstant`, `RegisterOperand`, `TempOperand`.  `nullOp` stands for
a null `OperandPtr`: `generateExpression`'s `default` arm returns
`nullptr`, and `m_localVarMap[name]` on a missing name default-constructs
a null pointer. -/
inductive Operand
  | intConst (value : Int)
  | register (r : Reg) (size : Size)
  | temp (stackOffset : Int) (size : Size)
  | nullOp
deriving DecidableEq, Repr

/-- `Operand::getSize` and its overrides: the base class returns `DWord`,
so an `IntegerConstant` reports `DWord`; registers and temps report their
stored size.  (Calling `getSize` through a null pointer is undefined in
the C++; the embedding gives the base default.) -/
def Operand.size : Operand → Size
  | Operand.intConst _ => Size.dword
  | Operand.register _ s => s
  | Operand.temp _ s => s
  | Operand.nullOp => Size.dword

/-- `isTemp` (CodeGenerator.cpp lines 526-528). -/
def Operand.isTemp : Operand → Bool
  | Operand.temp _ _ => true
  | _ => false

/-- `operand->getType() == OperandType::IntegerConstant`. -/
def Operand.isConst : Operand → Bool
  | Operand.intConst _ => true
  | _ => false

/-- `operand->getType() == OperandType::Register`. -/
def Operand.isRegister : Operand → Bool
  | Operand.register _ _ => true
  | _ => false

/-- `enum class ComparisonType` (Instructions.h lines 55-63). -/
inductive Cond
  | eq | ne | gt | ge | lt | le | none
deriving DecidableEq, Repr

/-- The `Instruction` class hierarchy (Instructions.h lines 108-304), plus
the spec-modelled `call` and `push` (see the section comment).  Field
order follows each constructor's C++ fields; `move`'s `signExtend`
defaults to `false` in C++ and is passed explicitly here. -/
inductive Instr
  | funcDef (name : String) (body : List Instr) (stackAlloc : Int)
  | move (source destination : Operand) (signExtend : Bool)
  | ret
  | negate (source : Operand)
  | bitwiseNot (source : Operand)
  | add (destination other : Operand)
  | sub (destination other : Operand)
  | mul (destination other : Operand)
  | divide (destination : Operand)
  | cdq
  | compare (left right : Operand)
  | set (destination : Operand) (cond : Cond)
  | jump (labelName : String) (cond : Cond)
  | label (name : String)
  | call (func : String)
  | push (src : Operand)

/-! ## The legalization pass (`validateInstructions`, CodeGenerator.cpp
lines 506-605)

The C++ walks the list by index; a handler may rewrite the instruction at
`i` in place and `emplace` one new instruction before it (at `i`, which
the loop then skips) or after it (at `i+1` / `i+2`, which the loop then
visits).  `validatePass` is the same pass written as recursion on the
list:

* an instruction inserted *before* the current one is emitted without a
  visit, exactly as the loop skips it;
* after an insert-before, the loop revisits the rewritten current
  instruction; in every such case (`validateAdd`/`validateSub` turned
  `other` into R10, `validateMul` turned the destination into R11,
  `validateCmp` turned `left` into AX, `validatePush` turned `src` into
  AX/QWord) the revisit matches no rewrite condition and is a no-op, so
  the rewritten instruction is emitted directly;
* an instruction inserted *after* is visited by the loop.  The inserts at
  `i+1` in `validateMove`/`validateMoveOperands` are moves from a
  register with source size ≥ destination size, which no rewrite
  condition matches, so they too are emitted directly.  The single case
  where the visited insert *can* fire a rewrite is `validateMul`'s
  trailing `Move R11, oldDst` at `i+2` when `oldDst` is wider than R10's
  default DWord: that visit runs `validateMove`'s sign-extension rewrite,
  inlined below as the inner `if`. -/
def validatePass : List Instr → List Instr
  | [] => []
  | Instr.funcDef n body sa :: rest =>
      -- validateFunction (lines 521-524) recurses into the body
      Instr.funcDef n (validatePass body) sa :: validatePass rest
  | Instr.move src dst se :: rest =>
      if dst.size.toNat > src.size.toNat then
        -- validateMove lines 550-556: route through AX of the destination
        -- size, sign-extend the first move, emit `Move AX, old_dst` after
        Instr.move src (Operand.register Reg.ax dst.size) true
          :: Instr.move (Operand.register Reg.ax dst.size) dst false
          :: validatePass rest
      else if src.isTemp && dst.isTemp then
        -- validateMoveOperands lines 530-537: route through R10 of the
        -- source size
        Instr.move src (Operand.register Reg.r10 src.size) se
          :: Instr.move (Operand.register Reg.r10 src.size) dst false
          :: validatePass rest
      else Instr.move src dst se :: validatePass rest
  | Instr.add dst other :: rest =>
      if dst.isTemp && other.isTemp then
        -- validateBinOperands lines 539-546: `Move other, R10` before
        Instr.move other (Operand.register Reg.r10 Size.dword) false
          :: Instr.add dst (Operand.register Reg.r10 Size.dword)
          :: validatePass rest
      else Instr.add dst other :: validatePass rest
  | Instr.sub dst other :: rest =>
      if dst.isTemp && other.isTemp then
        Instr.move other (Operand.register Reg.r10 Size.dword) false
          :: Instr.sub dst (Operand.register Reg.r10 Size.dword)
          :: validatePass rest
      else Instr.sub dst other :: validatePass rest
  | Instr.mul dst other :: rest =>
      if dst.isTemp then
        -- validateMul lines 571-580: `Move dst, R11` before, `Move R11,
        -- dst` after; the loop visits the trailing move (see above)
        if dst.size.toNat > Size.dword.toNat then
          Instr.move dst (Operand.register Reg.r11 Size.dword) false
            :: Instr.mul (Operand.register Reg.r11 Size.dword) other
            :: Instr.move (Operand.register Reg.r11 Size.dword)
                 (Operand.register Reg.ax dst.size) true
            :: Instr.move (Operand.register Reg.ax dst.size) dst false
            :: validatePass rest
        else
          Instr.move dst (Operand.register Reg.r11 Size.dword) false
            :: Instr.mul (Operand.register Reg.r11 Size.dword) other
            :: Instr.move (Operand.register Reg.r11 Size.dword) dst false
            :: validatePass rest
      else Instr.mul dst other :: validatePass rest
  | Instr.compare l r :: rest =>
      if l.isConst || l.isTemp then
        -- validateCmp lines 586-595: `Move left, AX` before
        Instr.move l (Operand.register Reg.ax Size.dword) false
          :: Instr.compare (Operand.register Reg.ax Size.dword) r
          :: validatePass rest
      else Instr.compare l r :: validatePass rest
  | Instr.push src :: rest =>
      if !src.isConst && src.size != Size.qword then
        -- validatePush lines 597-605: `Move src, AX(QWord)` before
        Instr.move src (Operand.register Reg.ax Size.qword) false
          :: Instr.push (Operand.register Reg.ax Size.qword)
          :: validatePass rest
      else Instr.push src :: validatePass rest
  | i :: rest => i :: validatePass rest

mutual

/-- The x86 constraints of the spec's legalization table (§4.5) for one
instruction, as claimed: no `Move`/`Add`/`Sub` with two `Temp` operands;
no `Mul` with a `Temp` destination; no `Compare` whose left operand is a
constant or a `Temp`; no `Push` whose source is neither a constant nor
QWord-sized; a `Move` into a strictly larger destination only
sign-extended through a scratch register.  Recurses into nested
function-definition bodies. -/
def legalInstr : Instr → Bool
  | Instr.funcDef _ body _ => legalList body
  | Instr.move src dst se =>
      !(src.isTemp && dst.isTemp)
        && (!(dst.size.toNat > src.size.toNat) || (se && dst.isRegister))
  | Instr.add dst other => !(dst.isTemp && other.isTemp)
  | Instr.sub dst other => !(dst.isTemp && other.isTemp)
  | Instr.mul dst _ => !dst.isTemp
  | Instr.compare l _ => !(l.isConst || l.isTemp)
  | Instr.push src => src.isConst || src.size == Size.qword
  | _ => true

/-- `legalInstr` over a list. -/
def legalList : List Instr → Bool
  | [] => true
  | i :: rest => legalInstr i && legalList rest

end

mutual

/-- The constraints of `legalInstr` minus the move-size clause: what a
single legalization pass establishes on any input (its insert-before
moves may still widen into a scratch register without sign extension;
the second pass fixes exactly those). -/
def baseOkInstr : Instr → Bool
  | Instr.funcDef _ body _ => baseOkList body
  | Instr.move src dst _ => !(src.isTemp && dst.isTemp)
  | Instr.add dst other => !(dst.isTemp && other.isTemp)
  | Instr.sub dst other => !(dst.isTemp && other.isTemp)
  | Instr.mul dst _ => !dst.isTemp
  | Instr.compare l _ => !(l.isConst || l.isTemp)
  | Instr.push src => src.isConst || src.size == Size.qword
  | _ => true

/-- `baseOkInstr` over a list. -/
def baseOkList : List Instr → Bool
  | [] => true
  | i :: rest => baseOkInstr i && baseOkList rest

end

/-! ## AST (src/Fractal/Parser/Nodes.h)

Only the node classes and fields the generator and analyzer read are
embedded; `Position` fields, the print methods and the float / string /
character / array-literal / member-access nodes (which no settled claim
touches) are omitted.  Token fields that the pipeline rewrites
(`Identifier::idToken.value`, `Call::funcToken.value`,
`Parameter::nameToken.value`, `VariableDefinition::nameToken.value`) are
embedded as the `String` they carry; rewriting a token is returning the
node with the new string. -/

/-- The operator token of a `UnaryOperation`: `- ~ !`. -/
inductive UnOp
  | minus | tilde | bang
deriving DecidableEq, Repr

/-- The operator token of a `BinaryOperation`: the cases
`generateBinaryOperation` (CodeGenerator.cpp lines 252-274) dispatches
on. -/
inductive BinOp
  | plus | minus | star | slash
  | less | lessEqual | greater | greaterEqual | equalEqual | bangEqual
  | andOp | orOp
deriving DecidableEq, Repr

/-- Expression nodes (Nodes.h). -/
inductive Expr
  | intLit (value : Int)
  | unary (op : UnOp) (sub : Expr)
  | binary (op : BinOp) (left right : Expr)
  | ident (name : String)
  | call (func : String) (args : List Expr)
  | assign (left right : Expr)

/-- A `Parameter` (Nodes.h lines 398-413): its name token's lexeme and
declared type. -/
structure Param where
  name : String
  ty : Ty

/-- Statement nodes (Nodes.h).  `varDef` is `VariableDefinition` used as
a local statement (it is also a `Definition`). -/
inductive Stmt
  | ret (e : Expr)
  | compound (stmts : List Stmt)
  | varDef (name : String) (ty : Ty) (initializer : Option Expr)
  | exprStmt (e : Expr)
  | ifS (cond : Expr) (thenBody : Stmt) (elseBody : Option Stmt)
  | loop (body : Stmt)
  | whileS (cond : Expr) (body : Stmt)
  | breakS
  | continueS
  | nullS

/-- `enum class Decorator`. -/
inductive Decorator
  | external | internal | globalDec
deriving DecidableEq, Repr

/-- Definition nodes: `FunctionDefinition`, `DecoratedDefinition` (whose
inner definition the generator touches only through `getName()`),
`VariableDefinition` in global position and `ClassDefinition` (both fall
into `generateDefinition`'s `default` arm). -/
inductive Defn
  | funcDef (name : String) (params : List Param) (retTy : Ty) (body : Stmt)
  | decorated (dec : Decorator) (name : String)
  | globalVar (name : String) (ty : Ty) (initializer : Option Expr)
  | classDef (name : String)

/-- `ProgramFile` (Nodes.h): ordered definitions and top-level
statements. -/
structure ProgramFile where
  definitions : List Defn
  statements : List Stmt

/-- `enum class Platform { Win, Mac }` (CodeGenerator.h lines 11-14). -/
inductive Platform
  | win | mac
deriving DecidableEq, Repr

/-! ## Code generator state (CodeGenerator.h lines 92-109) -/

/-- The `CodeGenerator` member state the lowering functions touch.
`allocTrace` is not a C++ member: it is ghost instrumentation recording
each `allocateStack` call's returned offset and requested byte count, so
the stack-layout invariants can be stated; no lowering step reads it. -/
structure GenState where
  currentStackIndex : Int
  localVarMap : List (String × Operand)
  comparisonIndex : Nat
  ifIndex : Nat
  loopIndex : Nat
  loopStack : List (String × String)
  externals : List String
  allocTrace : List (Int × Nat)

/-- The default-constructed generator state (all counters zero, maps
empty). -/
def GenState.init : GenState :=
  ⟨0, [], 0, 0, 0, [], [], []⟩

/-- `m_localVarMap[name] = op`: `std::unordered_map` assignment
overwrites; consing and first-match lookup give the same map. -/
def GenState.bindVar (st : GenState) (name : String) (op : Operand) : GenState :=
  { st with localVarMap := (name, op) :: st.localVarMap }

/-- `m_localVarMap[name]` on the read side: a missing key
default-constructs a null `OperandPtr` (`getIdentifier`,
CodeGenerator.cpp lines 223-226). -/
def GenState.lookupVar (st : GenState) (name : String) : Operand :=
  match st.localVarMap.find? (fun e => e.1 == name) with
  | some e => e.2
  | _ => Operand.nullOp

/-- `allocateStack` (CodeGenerator.cpp lines 499-502):
`m_currentStackIndex += (int)size; return m_currentStackIndex;`.  Also
appends to the ghost trace. -/
def allocateStack (size : Size) (st : GenState) : Int × GenState :=
  let v := st.currentStackIndex + (size.toNat : Int)
  (v, { st with currentStackIndex := v, allocTrace := st.allocTrace ++ [(v, size.toNat)] })

/-- `getTypeSize` (CodeGenerator.cpp lines 8-18): `I32 → DWord`,
`I64 → QWord`.  Every other type falls off the end of the function
(undefined behaviour in the C++); the embedding returns the base `DWord`
there, and no settled claim depends on those types' sizes. -/
def getTypeSize : Ty → Size
  | Ty.fundamental BasicType.i32 => Size.dword
  | Ty.fundamental BasicType.i64 => Size.qword
  | _ => Size.dword

/-- `generateComparisonIndex` (lines 424-426): pre-increment, returns the
new value. -/
def genComparisonIndex (st : GenState) : Nat × GenState :=
  (st.comparisonIndex + 1, { st with comparisonIndex := st.comparisonIndex + 1 })

/-- `generateIfIndex` (lines 428-430).  Note that `generateLoopStatement`
and `generateWhileStatement` also draw their label index from this
counter (lines 164 and 181), not from `generateLoopIndex`. -/
def genIfIndex (st : GenState) : Nat × GenState :=
  (st.ifIndex + 1, { st with ifIndex := st.ifIndex + 1 })

/-- `getComparisonType` (CodeGenerator.cpp lines 295-312). -/
def getComparisonType : BinOp → Cond
  | BinOp.equalEqual => Cond.eq
  | BinOp.bangEqual => Cond.ne
  | BinOp.greater => Cond.gt
  | BinOp.greaterEqual => Cond.ge
  | BinOp.less => Cond.lt
  | BinOp.lessEqual => Cond.le
  | _ => Cond.none  -- the C++ default arm breaks and falls off the end (UB)

/-- The per-platform argument register vectors (CodeGenerator.cpp lines
61-63 and 384-386). -/
def argumentRegisters : Platform → List Reg
  | Platform.win => [Reg.cx, Reg.dx, Reg.r8, Reg.r9]
  | Platform.mac => [Reg.di, Reg.si, Reg.dx, Reg.cx, Reg.r8, Reg.r9]

/-! ## Expression and statement lowering (CodeGenerator.cpp lines 90-406)

Each function returns, next to its C++ result, the list of instructions
it appended to `*instructions`, the updated member state, and the node it
received — updated, because `generateCall` writes through the shared
pointer into the AST (`callExpr->funcToken.value = "_" + ...`, line 380).
Two C++ evaluation-order notes: in `generateRelational` the two
`generateExpression` calls sit unsequenced in one argument list; the
embedding fixes left-then-right.  In `generateBreakStatement` /
`generateContinueStatement`, `m_loopStack[size-1]` on an empty stack is
undefined; the embedding jumps to a pair of empty labels then. -/
/-- Dropping a prefix never increases a list's `sizeOf`; justifies the
termination of the mutual lowering functions below. -/
theorem sizeOf_drop_le (l : List Expr) (n : Nat) : sizeOf (l.drop n) ≤ sizeOf l := by
  induction l generalizing n with
  | nil => cases n <;> simp
  | cons a as ih =>
      cases n with
      | zero => simp
      | succ m =>
          have := ih m
          simp only [List.drop_succ_cons]
          have h2 : sizeOf as ≤ sizeOf (a :: as) := by simp
          omega

mutual

/-- `generateExpression` (lines 210-221) and the per-node functions it
dispatches to. -/
def genExpr (p : Platform) : Expr → GenState → Operand × List Instr × GenState × Expr
  | Expr.intLit v, st =>
      -- generateIntConstant (lines 246-250)
      (Operand.intConst v, [], st, Expr.intLit v)
  | Expr.unary op sub, st =>
      -- generateUnaryOperation (lines 228-244): the destination Temp is
      -- allocated before the operand is lowered
      let (off, st1) := allocateStack Size.dword st
      let dst := Operand.temp off Size.dword
      let (res, ins, st2, sub2) := genExpr p sub st1
      let base := ins ++ [Instr.move res dst false]
      let out := match op with
        | UnOp.minus => base ++ [Instr.negate dst]
        | UnOp.tilde => base ++ [Instr.bitwiseNot dst]
        | UnOp.bang => base  -- no case in the switch: nothing appended
      (dst, out, st2, Expr.unary op sub2)
  | Expr.binary op l r, st =>
      match op with
      | BinOp.plus | BinOp.minus | BinOp.star =>
        -- generateArithmeticOperation (lines 276-293)
        let (off, st1) := allocateStack Size.dword st
        let dst := Operand.temp off Size.dword
        let (lres, lins, st2, l2) := genExpr p l st1
        let (rres, rins, st3, r2) := genExpr p r st2
        let tail := match op with
          | BinOp.plus => Instr.add dst rres
          | BinOp.star => Instr.mul dst rres
          | _ => Instr.sub dst rres
        (dst, lins ++ [Instr.move lres dst false] ++ rins ++ [tail], st3,
          Expr.binary op l2 r2)
      | BinOp.slash =>
        -- idiv (lines 460-469): the right operand is lowered first, then
        -- the scratch Temp is allocated, then the left operand
        let (rres, rins, st1, r2) := genExpr p r st
        let (off, st2) := allocateStack Size.dword st1
        let tmp := Operand.temp off Size.dword
        let (lres, lins, st3, l2) := genExpr p l st2
        (Operand.register Reg.ax Size.dword,
          rins ++ [Instr.move rres tmp false] ++ lins
            ++ [Instr.move lres (Operand.register Reg.ax Size.dword) false,
                Instr.cdq, Instr.divide tmp],
          st3, Expr.binary op l2 r2)
      | BinOp.less | BinOp.lessEqual | BinOp.greater | BinOp.greaterEqual
      | BinOp.equalEqual | BinOp.bangEqual =>
        -- generateRelational (lines 314-321): a 4-byte slot recorded with
        -- operand size Byte
        let (off, st1) := allocateStack Size.dword st
        let dst := Operand.temp off Size.byte
        let (lres, lins, st2, l2) := genExpr p l st1
        let (rres, rins, st3, r2) := genExpr p r st2
        (dst, lins ++ rins
            ++ [Instr.compare lres rres, Instr.set dst (getComparisonType op)],
          st3, Expr.binary op l2 r2)
      | BinOp.andOp | BinOp.orOp =>
        -- generateLogical (lines 323-368)
        let (off, st1) := allocateStack Size.dword st
        let dst := Operand.temp off Size.dword
        let (idx, st2) := genComparisonIndex st1
        let falseLabel := ".CF" ++ toString idx
        let trueLabel := ".CT" ++ toString idx
        let endLabel := ".CE" ++ toString idx
        let (lres, lins, st3, l2) := genExpr p l st2
        let (rres, rins, st4, r2) := genExpr p r st3
        let out :=
          if op = BinOp.andOp then
            lins ++ [Instr.compare lres (Operand.intConst 0),
                     Instr.jump falseLabel Cond.eq]
              ++ rins ++ [Instr.compare rres (Operand.intConst 0),
                          Instr.jump falseLabel Cond.eq,
                          Instr.move (Operand.intConst 1) dst false,
                          Instr.jump endLabel Cond.none,
                          Instr.label falseLabel,
                          Instr.move (Operand.intConst 0) dst false,
                          Instr.label endLabel]
          else
            lins ++ [Instr.compare lres (Operand.intConst 1),
                     Instr.jump trueLabel Cond.eq]
              ++ rins ++ [Instr.compare rres (Operand.intConst 1),
                          Instr.jump trueLabel Cond.eq,
                          Instr.move (Operand.intConst 0) dst false,
                          Instr.jump endLabel Cond.none,
                          Instr.label trueLabel,
                          Instr.move (Operand.intConst 1) dst false,
                          Instr.label endLabel]
        (dst, out, st4, Expr.binary op l2 r2)
  | Expr.ident name, st =>
      -- getIdentifier (lines 223-226)
      (st.lookupVar name, [], st, Expr.ident name)
  | Expr.call f args, st =>
      -- generateCall (lines 378-406)
      let f2 := if p = Platform.mac then "_" ++ f else f
      let stackPadding : Int :=
        (if p = Platform.win then 32 else 0) + (if args.length % 2 = 0 then 8 else 0)
      let regs := argumentRegisters p
      let (regIns, st1, argsA) := genArgsFwd p args regs st
      -- the overflow arguments are exactly those beyond the register list
      let (stackIns, stackArgs, st2, leftoverA) := genArgsRev p (args.drop regs.length) st1
      (Operand.register Reg.ax Size.dword,
        Instr.sub (Operand.register Reg.sp Size.qword) (Operand.intConst stackPadding)
          :: regIns ++ stackIns
          ++ [Instr.call f2,
              Instr.add (Operand.register Reg.sp Size.qword)
                (Operand.intConst (8 * (stackArgs : Int) + stackPadding))],
        st2, Expr.call f2 (argsA ++ leftoverA))
  | Expr.assign l r, st =>
      -- generateAssignment (lines 370-376): right first, then left
      let (rres, rins, st1, r2) := genExpr p r st
      let (lres, lins, st2, l2) := genExpr p l st1
      (lres, rins ++ lins ++ [Instr.move rres lres false], st2, Expr.assign l2 r2)
termination_by e _ => sizeOf e
decreasing_by
  all_goals simp_wf <;> first
    | omega
    | (have hsz := sizeOf_drop_le args (argumentRegisters p).length; omega)

/-- The first loop of `generateCall` (lines 390-392): pair arguments with
argument registers left to right, lowering each argument and moving its
value into the register with size DWord; arguments left once the
registers run out are returned untouched as the overflow list. -/
def genArgsFwd (p : Platform) :
    List Expr → List Reg → GenState → List Instr × GenState × List Expr
  | a :: as, r :: rs, st =>
      let (res, ins, st1, a2) := genExpr p a st
      let (ins2, st2, as2) := genArgsFwd p as rs st1
      (ins ++ [Instr.move res (Operand.register r Size.dword) false] ++ ins2,
        st2, a2 :: as2)
  | _, [], st => ([], st, [])
  | [], _ :: _, st => ([], st, [])
termination_by args _ _ => sizeOf args
decreasing_by all_goals simp_wf <;> omega

/-- The second loop of `generateCall` (lines 396-401): the overflow
arguments are lowered and pushed from the last argument down to the
first of the overflow list, counting the pushes. -/
def genArgsRev (p : Platform) :
    List Expr → GenState → List Instr × Nat × GenState × List Expr
  | [], st => ([], 0, st, [])
  | x :: rest, st =>
      let (ins1, c1, st1, rest2) := genArgsRev p rest st
      let (res, ins2, st2, x2) := genExpr p x st1
      (ins1 ++ ins2 ++ [Instr.push res], c1 + 1, st2, x2 :: rest2)
termination_by args _ => sizeOf args
decreasing_by all_goals simp_wf <;> omega

/-- `generateStatement` (lines 104-117) and the per-node functions. -/
def genStmt (p : Platform) : Stmt → GenState → List Instr × GenState × Stmt
  | Stmt.ret e, st =>
      -- generateReturnStatement (lines 131-136)
      let (res, ins, st1, e2) := genExpr p e st
      (ins ++ [Instr.move res (Operand.register Reg.ax Size.dword) false, Instr.ret],
        st1, Stmt.ret e2)
  | Stmt.compound xs, st =>
      -- generateCompoundStatement (lines 124-129)
      let (ins, st1, xs2) := genStmts p xs st
      (ins, st1, Stmt.compound xs2)
  | Stmt.varDef name ty (some e), st =>
      -- generateVariableDefinition (lines 90-98): the slot is allocated
      -- and bound before the initializer is lowered
      let varSize := getTypeSize ty
      let (off, st1) := allocateStack varSize st
      let varPtr := Operand.temp off varSize
      let st2 := st1.bindVar name varPtr
      let (res, ins, st3, e2) := genExpr p e st2
      (ins ++ [Instr.move res varPtr false], st3, Stmt.varDef name ty (some e2))
  | Stmt.varDef name ty none, st =>
      let varSize := getTypeSize ty
      let (off, st1) := allocateStack varSize st
      let varPtr := Operand.temp off varSize
      let st2 := st1.bindVar name varPtr
      ([], st2, Stmt.varDef name ty none)
  | Stmt.exprStmt e, st =>
      -- generateExpressionStatement (lines 119-122)
      let (_, ins, st1, e2) := genExpr p e st
      (ins, st1, Stmt.exprStmt e2)
  | Stmt.ifS cond thenBody (some elseB), st =>
      -- generateIfStatement (lines 138-159), with an else body
      let (idx, st1) := genIfIndex st
      let endLabel := ".IE" ++ toString idx
      let falseLabel := ".IF" ++ toString idx
      let (cres, cins, st2, cond2) := genExpr p cond st1
      let (tins, st3, then2) := genStmt p thenBody st2
      let (eins, st4, else2) := genStmt p elseB st3
      (cins ++ [Instr.compare cres (Operand.intConst 0),
                Instr.jump falseLabel Cond.eq]
         ++ tins ++ [Instr.jump endLabel Cond.none, Instr.label falseLabel]
         ++ eins ++ [Instr.label endLabel],
        st4, Stmt.ifS cond2 then2 (some else2))
  | Stmt.ifS cond thenBody none, st =>
      -- generateIfStatement with no else body: falseLabel = endLabel
      let (idx, st1) := genIfIndex st
      let endLabel := ".IE" ++ toString idx
      let (cres, cins, st2, cond2) := genExpr p cond st1
      let (tins, st3, then2) := genStmt p thenBody st2
      (cins ++ [Instr.compare cres (Operand.intConst 0),
                Instr.jump endLabel Cond.eq]
         ++ tins ++ [Instr.label endLabel],
        st3, Stmt.ifS cond2 then2 none)
  | Stmt.loop body, st =>
      -- generateLoopStatement (lines 161-176); the index comes from the
      -- if-counter
      let (idx, st1) := genIfIndex st
      let startLabel := ".LS" ++ toString idx
      let exitLabel := ".LE" ++ toString idx
      let st2 := { st1 with loopStack := (startLabel, exitLabel) :: st1.loopStack }
      let (bins, st3, body2) := genStmt p body st2
      let st4 := { st3 with loopStack := st3.loopStack.tail }
      (Instr.label startLabel :: bins
         ++ [Instr.jump startLabel Cond.none, Instr.label exitLabel],
        st4, Stmt.loop body2)
  | Stmt.whileS cond body, st =>
      -- generateWhileStatement (lines 178-196)
      let (idx, st1) := genIfIndex st
      let startLabel := ".LS" ++ toString idx
      let exitLabel := ".LE" ++ toString idx
      let st2 := { st1 with loopStack := (startLabel, exitLabel) :: st1.loopStack }
      let (cres, cins, st3, cond2) := genExpr p cond st2
      let (bins, st4, body2) := genStmt p body st3
      let st5 := { st4 with loopStack := st4.loopStack.tail }
      (Instr.label startLabel :: cins
         ++ [Instr.compare cres (Operand.intConst 0), Instr.jump exitLabel Cond.eq]
         ++ bins ++ [Instr.jump startLabel Cond.none, Instr.label exitLabel],
        st5, Stmt.whileS cond2 body2)
  | Stmt.breakS, st =>
      -- generateBreakStatement (lines 198-202)
      ([Instr.jump (st.loopStack.headD ("", "")).2 Cond.none], st, Stmt.breakS)
  | Stmt.continueS, st =>
      -- generateContinueStatement (lines 204-208)
      ([Instr.jump (st.loopStack.headD ("", "")).1 Cond.none], st, Stmt.continueS)
  | Stmt.nullS, st => ([], st, Stmt.nullS)
termination_by s _ => sizeOf s
decreasing_by all_goals simp_wf <;> omega

/-- The statement loops of `generate` / `generateCompoundStatement`. -/
def genStmts (p : Platform) : List Stmt → GenState → List Instr × GenState × List Stmt
  | [], st => ([], st, [])
  | s :: rest, st =>
      let (ins1, st1, s2) := genStmt p s st
      let (ins2, st2, rest2) := genStmts p rest st1
      (ins1 ++ ins2, st2, s2 :: rest2)
termination_by l _ => sizeOf l
decreasing_by all_goals simp_wf <;> omega

end

/-- The register-parameter loop of `generateFunctionDefinition`
(CodeGenerator.cpp lines 65-72): each of the first `min(n, |regs|)`
parameters gets a fresh stack Temp of its type's size, a
`Move argReg, stackParam` instruction, and a local-map binding. -/
def genParamRegs : List Param → List Reg → GenState → List Instr × GenState
  | prm :: rest, r :: rs, st =>
      let paramSize := getTypeSize prm.ty
      let (off, st1) := allocateStack paramSize st
      let stackParam := Operand.temp off paramSize
      let st2 := st1.bindVar prm.name stackParam
      let (ins, st3) := genParamRegs rest rs st2
      (Instr.move (Operand.register r paramSize) stackParam false :: ins, st3)
  | _, [], st => ([], st)
  | [], _ :: _, st => ([], st)

/-- The overflow-parameter loop (lines 76-79): parameter `i` (counting
from `|regs|`, so `j = i - |regs|` within the overflow list) is bound to
a Temp at offset `-(j + 2) * 8` with no instruction emitted.  The C++
computes `-(i - argumentRegisters.size() + 2) * 8` in `size_t`, wrapping
through unsigned arithmetic before the `int64_t` conversion; on the
two's-complement targets the compiler supports that equals this negative
value.  The loop runs from the last parameter down, so the embedding
recurses on the tail before binding the head. -/
def genParamOverflow : List Param → Nat → GenState → GenState
  | [], _, st => st
  | prm :: rest, j, st =>
      let st1 := genParamOverflow rest (j + 1) st
      st1.bindVar prm.name (Operand.temp (-(((j : Int) + 2) * 8)) (getTypeSize prm.ty))

/-- `generateFunctionDefinition` (lines 54-88): resets the stack cursor,
spills register parameters, binds overflow parameters, lowers the body,
records `stack_alloc` from the cursor after the body, and appends the
implicit `Move 0, AX` / `Return` tail. -/
def genFuncDef (p : Platform) (name : String) (params : List Param) (body : Stmt)
    (st : GenState) : Instr × GenState × Stmt :=
  let st0 := { st with currentStackIndex := 0 }  -- line 55
  let regs := argumentRegisters p
  let (paramIns, st1) := genParamRegs params regs st0
  let st2 :=
    if params.length > regs.length
    then genParamOverflow (params.drop regs.length) 0 st1
    else st1
  let (bins, st3, body2) := genStmt p body st2
  (Instr.funcDef name
      (paramIns ++ bins
        ++ [Instr.move (Operand.intConst 0) (Operand.register Reg.ax Size.dword) false,
            Instr.ret])
      st3.currentStackIndex,  -- line 84: stackAlloc = m_currentStackIndex
    st3, body2)

/-- `generateDecoratedDefinition` (lines 46-52): an `External` decorator
registers the name in `m_externals`. -/
def genDecorated (dec : Decorator) (name : String) (st : GenState) : GenState :=
  if dec = Decorator.external then { st with externals := st.externals ++ [name] }
  else st

/-- `generateDefinition` (lines 38-44).  The switch's
`FunctionDefinition` case has no `break` and falls through into the
`DecoratedDefinition` case, which casts the function definition to
`DecoratedDefinition` and reads a `decorator` field it does not have —
type confusion, undefined behaviour in the C++.  The embedding models
that stray read as not observing `Decorator::External` (state
unchanged); no settled claim reads the externals list after a function
definition.  `VariableDefinition` and `ClassDefinition` reach the
`default` arm and emit nothing. -/
def genDefinition (p : Platform) : Defn → GenState → List Instr × GenState × Defn
  | Defn.funcDef name params retTy body, st =>
      let (fdef, st1, body2) := genFuncDef p name params body st
      ([fdef], st1, Defn.funcDef name params retTy body2)
  | Defn.decorated dec name, st =>
      ([], genDecorated dec name st, Defn.decorated dec name)
  | d, st => ([], st, d)

/-- The definition loop of `generate` (lines 25-26). -/
def genDefs (p : Platform) : List Defn → GenState → List Instr × GenState × List Defn
  | [], st => ([], st, [])
  | d :: rest, st =>
      let (ins1, st1, d2) := genDefinition p d st
      let (ins2, st2, rest2) := genDefs p rest st1
      (ins1 ++ ins2, st2, d2 :: rest2)

/-- `CodeGenerator::generate` (lines 20-36): lowers the definitions into
`m_instructions`, builds the synthesized `main` `FunctionDefInstruction`
and lowers the top-level statements into its body — but never pushes
`mainFunc` into `m_instructions` — then runs the legalization pass twice
over `m_instructions` and returns it.  The embedding returns, in order:
the returned instruction list, the dropped `mainFunc` (so that its
absence from the returned list is visible), the final member state, and
the program as the lowering left it (`generateCall` writes through the
shared AST nodes). -/
def generate (program : ProgramFile) (platform : Platform) :
    List Instr × Instr × GenState × ProgramFile :=
  let (defIns, st1, defs2) := genDefs platform program.definitions GenState.init
  let (mainBody, st2, stmts2) := genStmts platform program.statements st1
  let mainFunc := Instr.funcDef "main" mainBody 0
  (validatePass (validatePass defIns), mainFunc, st2,
    { definitions := defs2, statements := stmts2 })

/-! ## Semantic analyzer (src/Fractal/Analysis/SemanticAnalyzer.cpp)

The analyzer mutates the AST (token lexemes, `expression_type`, inferred
variable types); the embedding returns the updated node, and returns the
inferred `expression_type` as an `Option Ty` (`none` is the null
`TypePtr` an unanalyzed expression carries; every success path populates
it).  `BreakStatement::loopIndex` / `ContinueStatement::loopIndex`, the
back-pointers the analyzer fills, are omitted from the embedded AST: no
settled claim reads them. -/

/-- `getBasicType` (Type.h lines 33-46): `None` and `User` fall into the
default arm. -/
def getBasicType : BasicType → String
  | BasicType.null => "Null"
  | BasicType.i32 => "i32"
  | BasicType.i64 => "i64"
  | BasicType.f32 => "f32"
  | BasicType.f64 => "f64"
  | BasicType.string => "String"
  | BasicType.character => "Char"
  | _ => ""

mutual

/-- The `typeName()` overrides (Type.h): the base class and `EmptyType`
print `""`; `FunctionType::typeName` appends `", "` after every
parameter and never closes the `<`. -/
def Ty.typeName : Ty → String
  | Ty.fundamental b => getBasicType b
  | Ty.userDefined n => n
  | Ty.pointer t => "(" ++ t.typeName ++ ")"
  | Ty.array t => "[" ++ t.typeName ++ "]"
  | Ty.function r ps => "func<" ++ r.typeName ++ "(" ++ Ty.paramNames ps ++ ")"
  | Ty.empty => ""

/-- The parameter loop of `FunctionType::typeName` (Type.h lines 87-88). -/
def Ty.paramNames : List Ty → String
  | [] => ""
  | t :: rest => t.typeName ++ ", " ++ Ty.paramNames rest

end

/-- `SymbolEntry` (SemanticAnalyzer.h lines 11-14): the unique name and
the type. -/
structure SymbolEntry where
  name : String
  type : Ty

/-- One `SymbolTable`: an `unordered_map` as an association list whose
head wins (assignment conses, lookup takes the first match). -/
abbrev Scope := List (String × SymbolEntry)

/-- The `SemanticAnalyzer` member state (SemanticAnalyzer.h lines 69-80)
together with the two function-local `static` counters
(`createUnique::index` and `uniqueLoop::index`), which are process-wide
and survive across runs — hence they are fields here with arbitrary
initial values rather than constants.  `localStack`'s head is the C++
vector's back, the innermost scope. -/
structure AnaState where
  globalTable : Scope
  currentFunction : Option (Ty × List Ty)
  localStack : List Scope
  loopStack : List Nat
  userTypes : List String
  uniqueIndex : Nat
  loopIndex : Nat
  errors : List String
  warnings : List String

/-- `m_errorHandler->reportError`. -/
def AnaState.reportError (st : AnaState) (msg : String) : AnaState :=
  { st with errors := st.errors ++ [msg] }

/-- `m_errorHandler->reportWarning`. -/
def AnaState.reportWarning (st : AnaState) (msg : String) : AnaState :=
  { st with warnings := st.warnings ++ [msg] }

/-- Lookup inside one scope map. -/
def scopeFind (sc : Scope) (name : String) : Option SymbolEntry :=
  match sc.find? (fun e => e.1 == name) with
  | some e => some e.2
  | _ => none

/-- `findNameGlobal` (SemanticAnalyzer.cpp lines 8-11). -/
def findNameGlobal (st : AnaState) (name : String) : Bool :=
  (scopeFind st.globalTable name).isSome

/-- `findNameLocal` (lines 13-18): scans the local stack innermost
first.  The C++ returns the vector index `i` (from the bottom) or `-1`;
the embedding returns the depth from the top, `some d` standing for the
C++ `i = size - 1 - d`, and `none` for `-1`.  Every C++ use of the index
reads `m_localStack[index]`, which is the scope at depth `d`. -/
def findNameLocal (st : AnaState) (name : String) : Option Nat :=
  go st.localStack 0
where
  /-- The descending loop over the stack, top first. -/
  go : List Scope → Nat → Option Nat
    | [], _ => none
    | sc :: rest, d => if (scopeFind sc name).isSome then some d else go rest (d + 1)

/-- `createUnique` (lines 20-23): `name + "." + std::to_string(index++)`
with a `static` post-incremented counter. -/
def createUnique (st : AnaState) (name : String) : String × AnaState :=
  (name ++ "." ++ toString st.uniqueIndex, { st with uniqueIndex := st.uniqueIndex + 1 })

/-- `uniqueLoop` (lines 25-28): a `static uint8_t` post-incremented
counter: the value read wraps modulo 256. -/
def uniqueLoop (st : AnaState) : Nat × AnaState :=
  (st.loopIndex % 256, { st with loopIndex := st.loopIndex + 1 })

/-- `pushScope` (lines 62-64). -/
def pushScope (st : AnaState) : AnaState :=
  { st with localStack := [] :: st.localStack }

/-- `popScope` (lines 66-68). -/
def popScope (st : AnaState) : AnaState :=
  { st with localStack := st.localStack.tail }

/-- `topScope()[name] = entry` (insertion into the innermost scope;
`topScope()` on an empty stack indexes `m_localStack[-1]`, undefined in
the C++ — the embedding leaves the state unchanged then). -/
def bindTop (st : AnaState) (name : String) (entry : SymbolEntry) : AnaState :=
  match st.localStack with
  | top :: rest => { st with localStack := ((name, entry) :: top) :: rest }
  | [] => st

/-- `m_globalTable[name] = entry`. -/
def bindGlobal (st : AnaState) (name : String) (entry : SymbolEntry) : AnaState :=
  { st with globalTable := (name, entry) :: st.globalTable }

/-- The scope at depth `d` from the top (`m_localStack[index]`). -/
def scopeAt (st : AnaState) (d : Nat) : Scope :=
  (st.localStack.get? d).getD []

/-- The l-value test of `analyzeExpressionAssignment` (lines 441-449):
syntactically a Call, Identifier or MemberAccess (the last is not in the
embedded AST). -/
def isLValue : Expr → Bool
  | Expr.call _ _ => true
  | Expr.ident _ => true
  | _ => false

/-- `compareArgsToParams` (lines 382-398).  The argument types were
stored into the nodes by the argument loop and are passed here as the
list the analysis computed; `callName` is `call->funcToken.value` as the
messages read it.  The source's type-mismatch message lacks its closing
quote. -/
def compareArgsToParams (params : List Ty) (argTypes : List (Option Ty))
    (callName : String) (st : AnaState) : Bool × AnaState :=
  if params.length != argTypes.length then
    (false, st.reportError ("Expected " ++ toString params.length ++ " arguments in '"
      ++ callName ++ "' call, but got " ++ toString argTypes.length))
  else go params argTypes st
where
  /-- The pairwise loop (lines 390-396). -/
  go : List Ty → List (Option Ty) → AnaState → Bool × AnaState
    | p :: ps, t :: ts, st =>
        if !sameType p (t.getD Ty.empty) then
          (false, st.reportError ("Expected argument type '" ++ p.typeName
            ++ "', got '" ++ (t.getD Ty.empty).typeName))
        else go ps ts st
    | _, _, st => (true, st)

mutual

/-- `analyzeExpression` (lines 278-293) and the per-node functions.  The
`(scopeFind …).getD ⟨"", Ty.empty⟩` reads mirror `m_localStack[index][name]`
/ `m_globalTable[name]`, whose `operator[]` default-constructs an entry
when the key is missing; the guards in front make that unreachable. -/
def anaExpr : Expr → AnaState → Bool × Option Ty × AnaState × Expr
  | Expr.intLit v, st =>
      -- analyzeExpressionInteger (lines 295-298)
      (true, some (Ty.fundamental BasicType.i32), st, Expr.intLit v)
  | Expr.unary op sub, st =>
      -- analyzeExpressionUnary (lines 355-361)
      let (ok, t, st1, sub2) := anaExpr sub st
      if !ok then (false, none, st1, Expr.unary op sub2)
      else (true, t, st1, Expr.unary op sub2)
  | Expr.binary op l r, st =>
      -- analyzeExpressionBinary (lines 341-353); `||` short-circuits, so
      -- the right side is analyzed only when the left succeeded
      let (okL, tl, st1, l2) := anaExpr l st
      if !okL then (false, none, st1, Expr.binary op l2 r)
      else
        let (okR, tr, st2, r2) := anaExpr r st1
        if !okR then (false, none, st2, Expr.binary op l2 r2)
        else
          let tlv := tl.getD Ty.empty
          let trv := tr.getD Ty.empty
          if !sameType tlv trv then
            (false, none,
              st2.reportError ("Cannot operate between '" ++ trv.typeName
                ++ "' and '" ++ tlv.typeName ++ "' types"),
              Expr.binary op l2 r2)
          else (true, some tlv, st2, Expr.binary op l2 r2)
  | Expr.ident name, st =>
      -- analyzeExpressionIdentifier (lines 363-380): a local hit rewrites
      -- the token's lexeme to the stored symbol name
      match findNameLocal st name with
      | some d =>
          let entry := (scopeFind (scopeAt st d) name).getD ⟨"", Ty.empty⟩
          (true, some entry.type, st, Expr.ident entry.name)
      | _ =>
          if !findNameGlobal st name then
            (false, none, st.reportError ("Undefined name '" ++ name ++ "'"),
              Expr.ident name)
          else
            let entry := (scopeFind st.globalTable name).getD ⟨"", Ty.empty⟩
            (true, some entry.type, st, Expr.ident name)
  | Expr.call f args, st =>
      -- analyzeExpressionCall (lines 400-436): resolve the callee (a
      -- local hit rewrites the token), analyze the arguments, then
      -- compare them to the parameter types
      match findNameLocal st f with
      | some d =>
          let entry := (scopeFind (scopeAt st d) f).getD ⟨"", Ty.empty⟩
          match entry.type with
          | Ty.function ret ps =>
              let f2 := entry.name
              let (okA, targs, st1, args2) := anaArgs args st
              if !okA then (false, none, st1, Expr.call f2 args2)
              else
                let (okC, st2) := compareArgsToParams ps targs f2 st1
                (okC, if okC then some ret else none, st2, Expr.call f2 args2)
          | _ =>
              (false, none, st.reportError "Cannot call non-function names",
                Expr.call f args)
      | _ =>
          if !findNameGlobal st f then
            (false, none, st.reportError ("Undefined name '" ++ f ++ "'"),
              Expr.call f args)
          else
            let entry := (scopeFind st.globalTable f).getD ⟨"", Ty.empty⟩
            match entry.type with
            | Ty.function ret ps =>
                let (okA, targs, st1, args2) := anaArgs args st
                if !okA then (false, none, st1, Expr.call f args2)
                else
                  let (okC, st2) := compareArgsToParams ps targs f st1
                  (okC, if okC then some ret else none, st2, Expr.call f args2)
            | _ =>
                (false, none, st.reportError "Cannot call non-function names",
                  Expr.call f args)
  | Expr.assign l r, st =>
      -- analyzeExpressionAssignment (lines 438-461)
      if !isLValue l then
        (false, none, st.reportError "Cannot assign to non-lvalues", Expr.assign l r)
      else
        let (okL, tl, st1, l2) := anaExpr l st
        if !okL then (false, none, st1, Expr.assign l2 r)
        else
          let (okR, tr, st2, r2) := anaExpr r st1
          if !okR then (false, none, st2, Expr.assign l2 r2)
          else
            let tlv := tl.getD Ty.empty
            let trv := tr.getD Ty.empty
            if !sameType tlv trv then
              (false, none,
                st2.reportError ("Cannot assign expression of type '" ++ trv.typeName
                  ++ "' to variable of type '" ++ tlv.typeName ++ "'"),
                Expr.assign l2 r2)
            else (true, some tlv, st2, Expr.assign l2 r2)

/-- The argument loop of `analyzeExpressionCall` (lines 432-433),
collecting each argument's stored `expression_type`. -/
def anaArgs : List Expr → AnaState → Bool × List (Option Ty) × AnaState × List Expr
  | [], st => (true, [], st, [])
  | a :: rest, st =>
      let (ok, t, st1, a2) := anaExpr a st
      if !ok then (false, [], st1, a2 :: rest)
      else
        let (okR, ts, st2, rest2) := anaArgs rest st1
        (okR, t :: ts, st2, a2 :: rest2)

/-- `analyzeDefinitionVariable` (lines 119-154), shared by local
statements (`isGlobal = false`) and globals.  The symbol is inserted
before the initializer is looked at, under its *original* name and its
*declared* type; type inference (line 144) updates only the node. -/
def anaDefVariable (isGlobal : Bool) (name : String) (ty : Ty) :
    Option Expr → AnaState → Bool × AnaState × Ty × Option Expr
  | initializer, st =>
      let bound : Bool × AnaState :=
        if isGlobal then
          if findNameGlobal st name then
            (false, st.reportError ("Variable '" ++ name ++ "' is already defined globally"))
          else (true, bindGlobal st name ⟨name, ty⟩)
        else
          match findNameLocal st name with
          | some _ =>
              (false, st.reportError ("Variable '" ++ name
                ++ "' is already defined in local scope"))
          | _ => (true, bindTop st name ⟨name, ty⟩)
      match bound with
      | (false, st1) => (false, st1, ty, initializer)
      | (true, st1) =>
          match initializer with
          | some e =>
              let (ok, et, st2, e2) := anaExpr e st1
              if !ok then (false, st2, ty, some e2)
              else
                match ty with
                | Ty.fundamental BasicType.none =>
                    -- line 144: infer the declared type from the initializer
                    (true, st2, et.getD Ty.empty, some e2)
                | _ =>
                    if !sameType (et.getD Ty.empty) ty then
                      (false,
                        st2.reportError
                          "Initializer Expression does not match the variable's type",
                        ty, some e2)
                    else (true, st2, ty, some e2)
          | _ => (true, st1, ty, initializer)

/-- `analyzeStatement` (lines 163-177) and the per-node functions.  On a
failing child the C++ returns false up the stack at once; where that
skips a `popScope` / loop-stack pop, so does the embedding. -/
def anaStmt : Stmt → AnaState → Bool × AnaState × Stmt
  | Stmt.compound xs, st =>
      -- analyzeStatementCompound (lines 194-203)
      let (ok, st2, xs2) := anaStmts xs (pushScope st)
      if !ok then (false, st2, Stmt.compound xs2)
      else (true, popScope st2, Stmt.compound xs2)
  | Stmt.exprStmt e, st =>
      -- analyzeStatementExpression (lines 179-192); MemberAccess, the
      -- third silent case, is not in the embedded AST
      let st1 :=
        match e with
        | Expr.call _ _ | Expr.assign _ _ => st
        | _ => st.reportWarning "Unused expression"
      let (ok, _, st2, e2) := anaExpr e st1
      (ok, st2, Stmt.exprStmt e2)
  | Stmt.ret e, st =>
      -- analyzeStatementReturn (lines 205-219)
      match st.currentFunction with
      | some (retTy, _) =>
          let (ok, et, st1, e2) := anaExpr e st
          if !ok then (false, st1, Stmt.ret e2)
          else if !sameType (et.getD Ty.empty) retTy then
            (false,
              st1.reportError ("Cannot return type '" ++ (et.getD Ty.empty).typeName
                ++ "' from a function which returns type '" ++ retTy.typeName ++ "'"),
              Stmt.ret e2)
          else (true, st1, Stmt.ret e2)
      | _ =>
          (false, st.reportError "Cannot use return outside of a function body",
            Stmt.ret e)
  | Stmt.ifS cond thenB elseB, st =>
      -- analyzeStatementIf (lines 221-231)
      let (okC, _, st1, cond2) := anaExpr cond st
      if !okC then (false, st1, Stmt.ifS cond2 thenB elseB)
      else
        let (okT, st2, then2) := anaStmt thenB st1
        if !okT then (false, st2, Stmt.ifS cond2 then2 elseB)
        else
          match elseB with
          | some e =>
              let (okE, st3, else2) := anaStmt e st2
              (okE, st3, Stmt.ifS cond2 then2 (some else2))
          | _ => (true, st2, Stmt.ifS cond2 then2 none)
  | Stmt.whileS cond body, st =>
      -- analyzeStatementWhile (lines 233-244)
      let (idx, st1) := uniqueLoop st
      let st2 := { st1 with loopStack := idx :: st1.loopStack }
      let (okC, _, st3, cond2) := anaExpr cond st2
      if !okC then (false, st3, Stmt.whileS cond2 body)
      else
        let (okB, st4, body2) := anaStmt body st3
        if !okB then (false, st4, Stmt.whileS cond2 body2)
        else (true, { st4 with loopStack := st4.loopStack.tail }, Stmt.whileS cond2 body2)
  | Stmt.loop body, st =>
      -- analyzeStatementLoop (lines 246-255)
      let (idx, st1) := uniqueLoop st
      let st2 := { st1 with loopStack := idx :: st1.loopStack }
      let (okB, st3, body2) := anaStmt body st2
      if !okB then (false, st3, Stmt.loop body2)
      else (true, { st3 with loopStack := st3.loopStack.tail }, Stmt.loop body2)
  | Stmt.breakS, st =>
      -- analyzeStatementBreak (lines 257-265); the loop-id back-pointer
      -- write is omitted with the field
      if st.loopStack.isEmpty then
        (false, st.reportError "Cannot use break outside of a loop", Stmt.breakS)
      else (true, st, Stmt.breakS)
  | Stmt.continueS, st =>
      -- analyzeStatementContinue (lines 267-275)
      if st.loopStack.isEmpty then
        (false, st.reportError "Cannot use continue outside of a loop", Stmt.continueS)
      else (true, st, Stmt.continueS)
  | Stmt.varDef name ty init, st =>
      -- line 173: VariableDefinition as a statement
      let (ok, st1, ty2, init2) := anaDefVariable false name ty init st
      (ok, st1, Stmt.varDef name ty2 init2)
  | Stmt.nullS, st => (true, st, Stmt.nullS)

/-- The statement loops of `analyze` / `analyzeStatementCompound`:
stop at the first failure. -/
def anaStmts : List Stmt → AnaState → Bool × AnaState × List Stmt
  | [], st => (true, st, [])
  | x :: rest, st =>
      let (ok, st1, x2) := anaStmt x st
      if !ok then (false, st1, x2 :: rest)
      else
        let (okR, st2, rest2) := anaStmts rest st1
        (okR, st2, x2 :: rest2)

end

/-- `analyzeParameters` (lines 102-117): per parameter, warn when it
shadows a global, error out on a duplicate within this list, otherwise
rename it through the unique counter, store the entry in the top scope
under the original name, and rewrite the parameter's token. -/
def anaParams : List Param → List String → AnaState → Bool × AnaState × List Param
  | [], _, st => (true, st, [])
  | prm :: rest, checkList, st =>
      let st1 :=
        if findNameGlobal st prm.name then
          st.reportWarning ("Parameter '" ++ prm.name ++ "' shadows a global name")
        else st
      if checkList.contains prm.name then
        (false,
          st1.reportError ("Parameter '" ++ prm.name ++ "' is already defined"),
          prm :: rest)
      else
        let (newName, st2) := createUnique st1 prm.name
        let st3 := bindTop st2 prm.name ⟨newName, prm.ty⟩
        let (ok, st4, rest2) := anaParams rest (checkList ++ [prm.name]) st3
        (ok, st4, { prm with name := newName } :: rest2)

/-- `analyzeDefinitionFunction` (lines 74-100): the scope is pushed
before the redefinition check, so the failure paths leak it exactly as
the C++ does. -/
def anaDefFunction (name : String) (params : List Param) (retTy : Ty) (body : Stmt)
    (st : AnaState) : Bool × AnaState × List Param × Stmt :=
  let st1 := pushScope st
  if findNameGlobal st1 name then
    (false, st1.reportError ("Function '" ++ name ++ "' is already defined"),
      params, body)
  else
    let (okP, st2, params2) := anaParams params [] st1
    if !okP then (false, st2, params2, body)
    else
      let paramTypes := params2.map (fun q => q.ty)
      let st3 := bindGlobal { st2 with currentFunction := some (retTy, paramTypes) }
        name ⟨name, Ty.function retTy paramTypes⟩
      let (okB, st4, body2) := anaStmt body st3
      if !okB then (false, st4, params2, body2)
      else (true, popScope { st4 with currentFunction := none }, params2, body2)

/-- `analyzeDefinition` (lines 52-60): `DecoratedDefinition` (absent from
the checked-in Nodes.h, see the AST section) has no case and reaches the
`default` arm, which returns false. -/
def anaDefinition : Defn → AnaState → Bool × AnaState × Defn
  | Defn.funcDef name params retTy body, st =>
      let (ok, st1, params2, body2) := anaDefFunction name params retTy body st
      (ok, st1, Defn.funcDef name params2 retTy body2)
  | Defn.globalVar name ty init, st =>
      let (ok, st1, ty2, init2) := anaDefVariable true name ty init st
      (ok, st1, Defn.globalVar name ty2 init2)
  | Defn.classDef name, st =>
      -- analyzeDefinitionClass (lines 156-160)
      (true, { st with userTypes := st.userTypes ++ [name] }, Defn.classDef name)
  | d, st => (false, st, d)

/-- The definition loop of `analyze` (lines 34-35). -/
def anaDefs : List Defn → AnaState → Bool × AnaState × List Defn
  | [], st => (true, st, [])
  | d :: rest, st =>
      let (ok, st1, d2) := anaDefinition d st
      if !ok then (false, st1, d2 :: rest)
      else
        let (okR, st2, rest2) := anaDefs rest st1
        (okR, st2, d2 :: rest2)

/-- `SemanticAnalyzer::analyze` (lines 30-43): reset the local stack,
analyze the definitions, then the top-level statements inside one pushed
scope.  The incoming state carries the global table and the process-wide
counters. -/
def analyzeProgram (program : ProgramFile) (st : AnaState) : Bool × AnaState × ProgramFile :=
  let st0 := { st with localStack := [] }
  let (okD, st1, defs2) := anaDefs program.definitions st0
  if !okD then (false, st1, { program with definitions := defs2 })
  else
    let (okS, st3, stmts2) := anaStmts program.statements (pushScope st1)
    if !okS then (false, st3, { definitions := defs2, statements := stmts2 })
    else (true, popScope st3, { definitions := defs2, statements := stmts2 })

/-- One legalization pass establishes the two-operand, multiply,
compare and push constraints on every instruction, whatever the input. -/
theorem validatePass_baseOk (l : List Instr) : baseOkList (validatePass l) = true := by
  induction l using validatePass.induct <;>
    simp only [validatePass] <;> (try split_ifs) <;>
    (try simp_all [baseOkList, baseOkInstr, Operand.isTemp, Operand.isRegister,
      Operand.isConst, Operand.size]) <;>
    (try simp only [Bool.eq_false_iff] at *) <;> (first | tauto | omega)

/-- A legalization pass run on a list already satisfying the base
constraints leaves every instruction fully legal: the only rewrites that
can still fire are the sign-extension routes of `validateMove`, and the
instructions they emit are legal. -/
theorem validatePass_legal (l : List Instr) (h : baseOkList l = true) :
    legalList (validatePass l) = true := by
  induction l using validatePass.induct <;>
    simp only [validatePass] <;> (try split_ifs) <;>
    (try simp_all [baseOkList, baseOkInstr, legalList, legalInstr, Operand.isTemp,
      Operand.isRegister, Operand.isConst, Operand.size]) <;>
    (try simp only [Bool.eq_false_iff] at *) <;> (first | tauto | omega)

/-! ## Claim theorems -/

/-- C1: the source `<define><!define>` parses to a `ProgramFile` with no
definitions and no statements.  `CodeGenerator::generate` builds the
synthesized `main` `FunctionDefInstruction` and lowers the top-level
statements into it, but never appends it to `m_instructions` (lines
28-35), so the instruction list it returns for this program is empty —
it contains no function named `main` at all, and the emitter given that
list prints no `main` prologue or epilogue.  This evaluates the code at
the failing input: the returned list is `[]` while the dropped
`mainFunc` is exactly the synthesized `main`. -/
theorem generate_empty_program_has_no_main :
    (generate { definitions := [], statements := [] } Platform.win).1 = []
      ∧ (generate { definitions := [], statements := [] } Platform.win).2.1
          = Instr.funcDef "main" [] 0 := by
  refine ⟨?_, ?_⟩ <;>
    simp [generate, genDefs, genStmts, validatePass, GenState.init]

/-- The source bytes `//a`: a single-line comment ended by end of file
rather than by a newline. -/
def commentAtEofSource : List Char := [Char.ofNat 47, Char.ofNat 47, Char.ofNat 97]

/-- C2: on the source `//a` the single-line-comment loop of
`Lexer::handleWhitespace` never meets its exit condition.  The loop
(Lexer.cpp lines 98-99) advances the cursor one index per iteration and
continues while `currentCharacter() != '\n' || currentCharacter() == '\0'`;
past the end of the source the cursor reads NUL forever (`advance`,
lines 41-46), and NUL satisfies the condition, so from any cursor index
the loop runs forever and `Lexer::analyze` does not terminate.  The
`if (currentCharacter() == '\0') return;` on line 100 sits after the
loop and is unreachable on this path. -/
theorem commentLoop_never_exits_at_eof (k : Nat) :
    singleLineCommentCond (charAt commentAtEofSource k) = true := by
  match k with
  | 0 => decide
  | 1 => decide
  | 2 => decide
  | (n + 3) =>
      have h : ¬ (n + 3 < commentAtEofSource.length) := by
        simp [commentAtEofSource]
      simp [charAt, h, singleLineCommentCond]

/-- C3: `sameType` is not reflexive: on two structurally identical
function types every check in the `Function` case passes, yet the case
falls through into `default: return false;` (Type.h lines 133-141), and
two `Empty` types have no case at all and reach the same default — both
come back `false`; the spec's structural equality (`specStructuralEq`)
says `true` for both.  The non-recursive variants do behave as
specified. -/
theorem sameType_irreflexive_on_function_and_empty :
    sameType (Ty.function (Ty.fundamental BasicType.i32) [Ty.fundamental BasicType.i32])
        (Ty.function (Ty.fundamental BasicType.i32) [Ty.fundamental BasicType.i32]) = false
      ∧ sameType Ty.empty Ty.empty = false
      ∧ specStructuralEq
          (Ty.function (Ty.fundamental BasicType.i32) [Ty.fundamental BasicType.i32])
          (Ty.function (Ty.fundamental BasicType.i32) [Ty.fundamental BasicType.i32]) = true
      ∧ specStructuralEq Ty.empty Ty.empty = true
      ∧ sameType (Ty.fundamental BasicType.i32) (Ty.fundamental BasicType.i32) = true
      ∧ sameType (Ty.pointer (Ty.fundamental BasicType.i64))
          (Ty.pointer (Ty.fundamental BasicType.i64)) = true :=
  ⟨rfl, rfl, rfl, rfl, rfl, rfl⟩

/-- C8: after the two legalization passes run by `generate`, every
instruction in the returned list — recursively through the bodies of
nested `FunctionDefinition` instructions — satisfies the x86
constraints: no `Move`/`Add`/`Sub` with two `Temp` operands, no `Mul`
with a `Temp` destination, no `Compare` with a constant or `Temp` left
operand, no `Push` whose source is neither a constant nor QWord, and
every widening `Move` sign-extended into a scratch register.  The first
conjunct states it for two passes over an arbitrary instruction list;
the second for the list `generate` returns. -/
theorem legalization_after_two_passes :
    (∀ l : List Instr, legalList (validatePass (validatePass l)) = true)
      ∧ ∀ (program : ProgramFile) (platform : Platform),
          legalList (generate program platform).1 = true := by
  constructor
  · intro l
    exact validatePass_legal _ (validatePass_baseOk l)
  · intro program platform
    show legalList (validatePass (validatePass _)) = true
    exact validatePass_legal _ (validatePass_baseOk _)

/-- A `Move` whose source is the integer constant `v` — marks where a
given operand's lowering begins in the examples below. -/
def isMoveOfConst (v : Int) : Instr → Bool
  | Instr.move (Operand.intConst w) _ _ => w == v
  | _ => false

/-- The lowering of `(-1) / (-2)` (each operand emits instructions, so
their order is visible). -/
def divOrderExample : List Instr :=
  (genExpr Platform.win
    (Expr.binary BinOp.slash
      (Expr.unary UnOp.minus (Expr.intLit 1))
      (Expr.unary UnOp.minus (Expr.intLit 2)))
    GenState.init).2.1

/-- C6 counterexample: lowering the division `(-1) / (-2)` emits the
right operand's instructions first.  The right operand's `Move 2, tmp`
sits at index 0 of the emitted list and the left operand's `Move 1, tmp`
at index 3, so the instructions that evaluate the left operand do *not*
precede those of the right operand — `idiv` (CodeGenerator.cpp lines
460-469) lowers `division->right` before `division->left`. -/
theorem division_lowers_right_operand_first :
    divOrderExample =
      [Instr.move (Operand.intConst 2) (Operand.temp 4 Size.dword) false,
       Instr.negate (Operand.temp 4 Size.dword),
       Instr.move (Operand.temp 4 Size.dword) (Operand.temp 8 Size.dword) false,
       Instr.move (Operand.intConst 1) (Operand.temp 12 Size.dword) false,
       Instr.negate (Operand.temp 12 Size.dword),
       Instr.move (Operand.temp 12 Size.dword) (Operand.register Reg.ax Size.dword) false,
       Instr.cdq,
       Instr.divide (Operand.temp 8 Size.dword)]
      ∧ divOrderExample.findIdx (isMoveOfConst 2) = 0
      ∧ divOrderExample.findIdx (isMoveOfConst 1) = 3
      ∧ ¬ divOrderExample.findIdx (isMoveOfConst 1)
            < divOrderExample.findIdx (isMoveOfConst 2) := by
  have h : divOrderExample =
      [Instr.move (Operand.intConst 2) (Operand.temp 4 Size.dword) false,
       Instr.negate (Operand.temp 4 Size.dword),
       Instr.move (Operand.temp 4 Size.dword) (Operand.temp 8 Size.dword) false,
       Instr.move (Operand.intConst 1) (Operand.temp 12 Size.dword) false,
       Instr.negate (Operand.temp 12 Size.dword),
       Instr.move (Operand.temp 12 Size.dword) (Operand.register Reg.ax Size.dword) false,
       Instr.cdq,
       Instr.divide (Operand.temp 8 Size.dword)] := by
    simp [divOrderExample, genExpr, allocateStack, GenState.init, Size.toNat]
  refine ⟨h, ?_, ?_, ?_⟩ <;> simp [h, isMoveOfConst, List.findIdx, List.findIdx.go]

/-- C6 amended: the lowering order per operator, for all operand
expressions and states.  For `+ - *` the left operand's instructions
precede the right's (and the destination Temp is allocated first, the
right operand lowered in the post-left state); for `/` the right
operand's instructions come first, then the divisor Temp is allocated,
then the left operand is lowered. -/
theorem binary_lowering_operand_order (p : Platform) (l r : Expr) (st : GenState) :
    ((genExpr p (Expr.binary BinOp.slash l r) st).2.1 =
        (let (rres, rins, st1, _) := genExpr p r st
         let (off, st2) := allocateStack Size.dword st1
         let (lres, lins, _, _) := genExpr p l st2
         rins ++ [Instr.move rres (Operand.temp off Size.dword) false] ++ lins
           ++ [Instr.move lres (Operand.register Reg.ax Size.dword) false,
               Instr.cdq, Instr.divide (Operand.temp off Size.dword)]))
      ∧ ((genExpr p (Expr.binary BinOp.plus l r) st).2.1 =
          (let (off, st1) := allocateStack Size.dword st
           let (lres, lins, st2, _) := genExpr p l st1
           let (rres, rins, _, _) := genExpr p r st2
           lins ++ [Instr.move lres (Operand.temp off Size.dword) false] ++ rins
             ++ [Instr.add (Operand.temp off Size.dword) rres]))
      ∧ ((genExpr p (Expr.binary BinOp.minus l r) st).2.1 =
          (let (off, st1) := allocateStack Size.dword st
           let (lres, lins, st2, _) := genExpr p l st1
           let (rres, rins, _, _) := genExpr p r st2
           lins ++ [Instr.move lres (Operand.temp off Size.dword) false] ++ rins
             ++ [Instr.sub (Operand.temp off Size.dword) rres]))
      ∧ ((genExpr p (Expr.binary BinOp.star l r) st).2.1 =
          (let (off, st1) := allocateStack Size.dword st
           let (lres, lins, st2, _) := genExpr p l st1
           let (rres, rins, _, _) := genExpr p r st2
           lins ++ [Instr.move lres (Operand.temp off Size.dword) false] ++ rins
             ++ [Instr.mul (Operand.temp off Size.dword) rres])) := by
  refine ⟨?_, ?_, ?_, ?_⟩
  · rcases hR : genExpr p r st with ⟨rres, rins, st1, rup⟩
    rcases hA : allocateStack Size.dword st1 with ⟨off, st2⟩
    rcases hL : genExpr p l st2 with ⟨lres, lins, st3, lup⟩
    simp [genExpr, hR, hA, hL]
  all_goals
    rcases hA : allocateStack Size.dword st with ⟨off, st1⟩
    rcases hL : genExpr p l st1 with ⟨lres, lins, st2, lup⟩
    rcases hR : genExpr p r st2 with ⟨rres, rins, st3, rup⟩
    simp [genExpr, hA, hL, hR]

/-- A list of integer-literal argument expressions; a literal lowers to
its `IntegerConstant` with no instructions, so with these arguments the
call sequence appears undiluted. -/
def intLits (vals : List Int) : List Expr := vals.map Expr.intLit

/-- The register loop of `generateCall` on literal arguments: one
DWord-sized move per (argument, register) pair, in argument order. -/
theorem genArgsFwd_lits (vals : List Int) (regs : List Reg) (st : GenState) :
    genArgsFwd Platform.win (vals.map Expr.intLit) regs st =
      (List.zipWith
        (fun v rg => Instr.move (Operand.intConst v) (Operand.register rg Size.dword) false)
        vals regs,
       st, (vals.take regs.length).map Expr.intLit) := by
  induction vals generalizing regs st with
  | nil => cases regs <;> simp [genArgsFwd]
  | cons v vs ih =>
      cases regs with
      | nil => simp [genArgsFwd]
      | cons rg rgs => simp [genArgsFwd, genExpr, ih, List.zipWith]

/-- The overflow loop of `generateCall` on literal arguments: pushes in
reverse argument order, one per argument. -/
theorem genArgsRev_lits (vals : List Int) (st : GenState) :
    genArgsRev Platform.win (vals.map Expr.intLit) st =
      (vals.reverse.map (fun v => Instr.push (Operand.intConst v)), vals.length, st,
        vals.map Expr.intLit) := by
  induction vals with
  | nil => simp [genArgsRev]
  | cons v vs ih => simp [genArgsRev, genExpr, ih]

set_option maxRecDepth 4000 in
/-- C7: the Windows call sequence.  For a call `f(v₁, …, vₙ)` with
integer-literal arguments the generator emits exactly
`sub SP, p` with `p = 32 + (8 iff n even)`, then DWord moves of the
first `min(n, 4)` argument values into `CX, DX, R8, R9` in
left-to-right order, then pushes of the arguments beyond the fourth in
right-to-left order, then `Call f`, then `add SP, 8·s + p` with
`s = max(n - 4, 0)` (the natural subtraction `n - 4`); the call's
result operand is `AX` at DWord — also for arbitrary argument
expressions (second conjunct), where the same sequence carries each
argument's evaluation instructions in front of its move or push. -/
theorem generateCall_win_shape (f : String) (vals : List Int) (args : List Expr)
    (st : GenState) :
    genExpr Platform.win (Expr.call f (intLits vals)) st =
      (Operand.register Reg.ax Size.dword,
       Instr.sub (Operand.register Reg.sp Size.qword)
           (Operand.intConst (32 + (if vals.length % 2 = 0 then 8 else 0)))
         :: List.zipWith
             (fun v rg =>
               Instr.move (Operand.intConst v) (Operand.register rg Size.dword) false)
             vals [Reg.cx, Reg.dx, Reg.r8, Reg.r9]
         ++ (vals.drop 4).reverse.map (fun v => Instr.push (Operand.intConst v))
         ++ [Instr.call f,
             Instr.add (Operand.register Reg.sp Size.qword)
               (Operand.intConst (8 * ((vals.length - 4 : Nat) : Int)
                 + (32 + (if vals.length % 2 = 0 then 8 else 0))))],
       st, Expr.call f (intLits vals))
      ∧ (genExpr Platform.win (Expr.call f args) st).1
          = Operand.register Reg.ax Size.dword := by
  constructor
  · have hrev : genArgsRev Platform.win (List.drop 4 (List.map Expr.intLit vals)) st =
        ((List.drop 4 (List.map (fun v => Instr.push (Operand.intConst v)) vals)).reverse,
          (List.drop 4 vals).length, st, List.drop 4 (List.map Expr.intLit vals)) := by
      rw [show List.drop 4 (List.map Expr.intLit vals)
            = List.map Expr.intLit (List.drop 4 vals) by simp [List.map_drop],
        genArgsRev_lits]
      simp [List.map_drop]
    simp only [intLits]
    simp [genExpr, argumentRegisters, genArgsFwd_lits, hrev, List.take_append_drop]
  · rcases h1 : genArgsFwd Platform.win args (argumentRegisters Platform.win) st
      with ⟨a, b, c⟩
    rcases h2 : genArgsRev Platform.win
        (args.drop (argumentRegisters Platform.win).length) b with ⟨d, e, g, k⟩
    simp [genExpr, h1, h2]

mutual

/-- On Windows the expression lowering returns every AST node unchanged:
the only node-mutating site in the generator is `generateCall`'s
macOS-only name mangling (CodeGenerator.cpp line 380). -/
theorem genExpr_win_id : ∀ (e : Expr) (st : GenState),
    (genExpr Platform.win e st).2.2.2 = e
  | Expr.intLit v, st => by simp [genExpr]
  | Expr.unary op sub, st => by
      rcases hA : allocateStack Size.dword st with ⟨off, st1⟩
      rcases hS : genExpr Platform.win sub st1 with ⟨res, ins, st2, sub2⟩
      have ih := genExpr_win_id sub st1
      rw [hS] at ih; simp at ih
      simp [genExpr, hA, hS, ih]
  | Expr.binary op l r, st => by
      cases op <;>
        first
          | -- arithmetic / relational: destination slot first, then left,
            -- then right
            (rcases hA : allocateStack Size.dword st with ⟨off, st1⟩
             rcases hL : genExpr Platform.win l st1 with ⟨lres, lins, st2, l2⟩
             rcases hR : genExpr Platform.win r st2 with ⟨rres, rins, st3, r2⟩
             have ihl := genExpr_win_id l st1
             have ihr := genExpr_win_id r st2
             rw [hL] at ihl; simp at ihl
             rw [hR] at ihr; simp at ihr
             simp [genExpr, hA, hL, hR, ihl, ihr]
             done)
          | -- logical: slot, then the comparison index, then left, right
            (rcases hA : allocateStack Size.dword st with ⟨off, st1⟩
             rcases hI : genComparisonIndex st1 with ⟨idx, st1b⟩
             rcases hL : genExpr Platform.win l st1b with ⟨lres, lins, st2, l2⟩
             rcases hR : genExpr Platform.win r st2 with ⟨rres, rins, st3, r2⟩
             have ihl := genExpr_win_id l st1b
             have ihr := genExpr_win_id r st2
             rw [hL] at ihl; simp at ihl
             rw [hR] at ihr; simp at ihr
             simp [genExpr, hA, hI, hL, hR, ihl, ihr]
             done)
          | -- division: right first, then the slot, then left
            (rcases hR : genExpr Platform.win r st with ⟨rres, rins, st1, r2⟩
             rcases hA : allocateStack Size.dword st1 with ⟨off, st2⟩
             rcases hL : genExpr Platform.win l st2 with ⟨lres, lins, st3, l2⟩
             have ihr := genExpr_win_id r st
             have ihl := genExpr_win_id l st2
             rw [hR] at ihr; simp at ihr
             rw [hL] at ihl; simp at ihl
             simp [genExpr, hR, hA, hL, ihl, ihr]
             done)
  | Expr.ident name, st => by simp [genExpr]
  | Expr.call f args, st => by
      rcases hF : genArgsFwd Platform.win args (argumentRegisters Platform.win) st
        with ⟨regIns, st1, argsA⟩
      rcases hR : genArgsRev Platform.win
          (args.drop (argumentRegisters Platform.win).length) st1
        with ⟨stackIns, cnt, st2, leftoverA⟩
      have ihf := genArgsFwd_win_id args (argumentRegisters Platform.win) st
      have ihr := genArgsRev_win_id (args.drop (argumentRegisters Platform.win).length) st1
      rw [hF] at ihf; simp at ihf
      rw [hR] at ihr; simp at ihr
      simp [genExpr, hF, hR, ihf, ihr, List.take_append_drop]
  | Expr.assign l r, st => by
      rcases hR : genExpr Platform.win r st with ⟨rres, rins, st1, r2⟩
      rcases hL : genExpr Platform.win l st1 with ⟨lres, lins, st2, l2⟩
      have ihr := genExpr_win_id r st
      have ihl := genExpr_win_id l st1
      rw [hR] at ihr; simp at ihr
      rw [hL] at ihl; simp at ihl
      simp [genExpr, hR, hL, ihl, ihr]
termination_by e _ => sizeOf e
decreasing_by
  all_goals simp_wf <;> first
    | omega
    | (have hsz := sizeOf_drop_le args (argumentRegisters Platform.win).length; omega)

/-- The register-argument loop returns, as the updated prefix, the first
`|regs|` arguments unchanged on Windows. -/
theorem genArgsFwd_win_id : ∀ (args : List Expr) (regs : List Reg) (st : GenState),
    (genArgsFwd Platform.win args regs st).2.2 = args.take regs.length
  | a :: as, r :: rs, st => by
      rcases hE : genExpr Platform.win a st with ⟨res, ins, st1, a2⟩
      have ih := genExpr_win_id a st
      rw [hE] at ih; simp at ih
      rcases hF : genArgsFwd Platform.win as rs st1 with ⟨ins2, st2, as2⟩
      have ihf := genArgsFwd_win_id as rs st1
      rw [hF] at ihf; simp at ihf
      simp [genArgsFwd, hE, hF, ih, ihf]
  | [], [], st => by simp [genArgsFwd]
  | a :: as, [], st => by simp [genArgsFwd]
  | [], r :: rs, st => by simp [genArgsFwd]
termination_by args _ _ => sizeOf args
decreasing_by all_goals simp_wf <;> omega

/-- The overflow-argument loop returns its list unchanged on Windows. -/
theorem genArgsRev_win_id : ∀ (xs : List Expr) (st : GenState),
    (genArgsRev Platform.win xs st).2.2.2 = xs
  | [], st => by simp [genArgsRev]
  | x :: rest, st => by
      rcases hT : genArgsRev Platform.win rest st with ⟨ins1, c1, st1, rest2⟩
      have iht := genArgsRev_win_id rest st
      rw [hT] at iht; simp at iht
      rcases hE : genExpr Platform.win x st1 with ⟨res, ins2, st2, x2⟩
      have ih := genExpr_win_id x st1
      rw [hE] at ih; simp at ih
      simp [genArgsRev, hT, hE, ih, iht]
termination_by xs _ => sizeOf xs
decreasing_by all_goals simp_wf <;> omega

/-- On Windows the statement lowering returns every AST node
unchanged. -/
theorem genStmt_win_id : ∀ (s : Stmt) (st : GenState),
    (genStmt Platform.win s st).2.2 = s
  | Stmt.ret e, st => by
      rcases hE : genExpr Platform.win e st with ⟨res, ins, st1, e2⟩
      have ih := genExpr_win_id e st
      rw [hE] at ih; simp at ih
      simp [genStmt, hE, ih]
  | Stmt.compound xs, st => by
      rcases hS : genStmts Platform.win xs st with ⟨ins, st1, xs2⟩
      have ih := genStmts_win_id xs st
      rw [hS] at ih; simp at ih
      simp [genStmt, hS, ih]
  | Stmt.varDef name ty (some e), st => by
      rcases hA : allocateStack (getTypeSize ty) st with ⟨off, st1⟩
      rcases hE : genExpr Platform.win e (st1.bindVar name (Operand.temp off (getTypeSize ty)))
        with ⟨res, ins, st2, e2⟩
      have ih := genExpr_win_id e (st1.bindVar name (Operand.temp off (getTypeSize ty)))
      rw [hE] at ih; simp at ih
      simp [genStmt, hA, hE, ih]
  | Stmt.varDef name ty none, st => by simp [genStmt]
  | Stmt.exprStmt e, st => by
      rcases hE : genExpr Platform.win e st with ⟨res, ins, st1, e2⟩
      have ih := genExpr_win_id e st
      rw [hE] at ih; simp at ih
      simp [genStmt, hE, ih]
  | Stmt.ifS cond thenB (some elseB), st => by
      rcases hI : genIfIndex st with ⟨idx, st1⟩
      rcases hC : genExpr Platform.win cond st1 with ⟨cres, cins, st2, cond2⟩
      have ihc := genExpr_win_id cond st1
      rw [hC] at ihc; simp at ihc
      rcases hT : genStmt Platform.win thenB st2 with ⟨tins, st3, then2⟩
      have iht := genStmt_win_id thenB st2
      rw [hT] at iht; simp at iht
      rcases hEl : genStmt Platform.win elseB st3 with ⟨eins, st4, else2⟩
      have ihe := genStmt_win_id elseB st3
      rw [hEl] at ihe; simp at ihe
      simp [genStmt, hI, hC, hT, hEl, ihc, iht, ihe]
  | Stmt.ifS cond thenB none, st => by
      rcases hI : genIfIndex st with ⟨idx, st1⟩
      rcases hC : genExpr Platform.win cond st1 with ⟨cres, cins, st2, cond2⟩
      have ihc := genExpr_win_id cond st1
      rw [hC] at ihc; simp at ihc
      rcases hT : genStmt Platform.win thenB st2 with ⟨tins, st3, then2⟩
      have iht := genStmt_win_id thenB st2
      rw [hT] at iht; simp at iht
      simp [genStmt, hI, hC, hT, ihc, iht]
  | Stmt.loop body, st => by
      rcases hI : genIfIndex st with ⟨idx, st1⟩
      rcases hB : genStmt Platform.win body
          { st1 with loopStack := (".LS" ++ toString idx, ".LE" ++ toString idx) :: st1.loopStack }
        with ⟨bins, st3, body2⟩
      have ihb := genStmt_win_id body
        { st1 with loopStack := (".LS" ++ toString idx, ".LE" ++ toString idx) :: st1.loopStack }
      rw [hB] at ihb; simp at ihb
      simp [genStmt, hI, hB, ihb]
  | Stmt.whileS cond body, st => by
      rcases hI : genIfIndex st with ⟨idx, st1⟩
      rcases hC : genExpr Platform.win cond
          { st1 with loopStack := (".LS" ++ toString idx, ".LE" ++ toString idx) :: st1.loopStack }
        with ⟨cres, cins, st2, cond2⟩
      have ihc := genExpr_win_id cond
        { st1 with loopStack := (".LS" ++ toString idx, ".LE" ++ toString idx) :: st1.loopStack }
      rw [hC] at ihc; simp at ihc
      rcases hB : genStmt Platform.win body st2 with ⟨bins, st3, body2⟩
      have ihb := genStmt_win_id body st2
      rw [hB] at ihb; simp at ihb
      simp [genStmt, hI, hC, hB, ihc, ihb]
  | Stmt.breakS, st => by simp [genStmt]
  | Stmt.continueS, st => by simp [genStmt]
  | Stmt.nullS, st => by simp [genStmt]
termination_by s _ => sizeOf s
decreasing_by all_goals simp_wf <;> omega

/-- On Windows the statement-list lowering returns its list
unchanged. -/
theorem genStmts_win_id : ∀ (l : List Stmt) (st : GenState),
    (genStmts Platform.win l st).2.2 = l
  | [], st => by simp [genStmts]
  | x :: rest, st => by
      rcases hX : genStmt Platform.win x st with ⟨ins1, st1, x2⟩
      have ih := genStmt_win_id x st
      rw [hX] at ih; simp at ih
      rcases hR : genStmts Platform.win rest st1 with ⟨ins2, st2, rest2⟩
      have ihr := genStmts_win_id rest st1
      rw [hR] at ihr; simp at ihr
      simp [genStmts, hX, hR, ih, ihr]
termination_by l _ => sizeOf l
decreasing_by all_goals simp_wf <;> omega

end

/-- On Windows `generateFunctionDefinition` returns the function body
unchanged. -/
theorem genFuncDef_win_id (name : String) (params : List Param) (body : Stmt)
    (st : GenState) : (genFuncDef Platform.win name params body st).2.2 = body := by
  unfold genFuncDef
  rcases hP : genParamRegs params (argumentRegisters Platform.win)
      { st with currentStackIndex := 0 } with ⟨paramIns, st1⟩
  rcases hB : genStmt Platform.win body
      (if params.length > (argumentRegisters Platform.win).length
       then genParamOverflow (params.drop (argumentRegisters Platform.win).length) 0 st1
       else st1) with ⟨bins, st3, body2⟩
  have ih := genStmt_win_id body
    (if params.length > (argumentRegisters Platform.win).length
     then genParamOverflow (params.drop (argumentRegisters Platform.win).length) 0 st1
     else st1)
  rw [hB] at ih; simp at ih
  simp [hP, hB, ih]

/-- On Windows the definition loop of `generate` returns every
definition unchanged. -/
theorem genDefs_win_id (defs : List Defn) (st : GenState) :
    (genDefs Platform.win defs st).2.2 = defs := by
  induction defs generalizing st with
  | nil => simp [genDefs]
  | cons d rest ih =>
      rcases hD : genDefinition Platform.win d st with ⟨ins1, st1, d2⟩
      have hd2 : d2 = d := by
        cases d with
        | funcDef name params retTy body =>
            rcases hF : genFuncDef Platform.win name params body st with ⟨fdef, stx, body2⟩
            have := genFuncDef_win_id name params body st
            rw [hF] at this; simp at this
            simp [genDefinition, hF] at hD
            simp [← hD.2.2, this]
        | decorated dec nm => simp [genDefinition] at hD; simp [← hD.2.2]
        | globalVar nm ty init => simp [genDefinition] at hD; simp [← hD.2.2]
        | classDef nm => simp [genDefinition] at hD; simp [← hD.2.2]
      simp [genDefs, hD, hd2, ih]

/-- C9 counterexample: on macOS, `generate` writes into the analyzer's
AST: lowering the call statement `f();` prepends `_` to the shared
`Call` node's `funcToken.value` (CodeGenerator.cpp line 380), so after
`generate` returns the program differs from its state before the call —
the claim's read-only property fails for the macOS platform. -/
theorem mac_generate_mutates_callee_token :
    (generate (ProgramFile.mk [] [Stmt.exprStmt (Expr.call "f" [])]) Platform.mac).2.2.2
        = ProgramFile.mk [] [Stmt.exprStmt (Expr.call "_f" [])]
      ∧ (generate (ProgramFile.mk [] [Stmt.exprStmt (Expr.call "f" [])]) Platform.mac).2.2.2
          ≠ ProgramFile.mk [] [Stmt.exprStmt (Expr.call "f" [])] := by
  have h : (generate (ProgramFile.mk [] [Stmt.exprStmt (Expr.call "f" [])])
        Platform.mac).2.2.2
      = ProgramFile.mk [] [Stmt.exprStmt (Expr.call "_f" [])] := by
    simp [generate, genDefs, genStmts, genStmt, genExpr, genArgsFwd, genArgsRev,
      argumentRegisters, GenState.init]
  refine ⟨h, ?_⟩
  intro hEq
  rw [h] at hEq
  have h2 := congrArg ProgramFile.statements hEq
  simp at h2

/-- C9 amended: on Windows `CodeGenerator::generate` consumes the
analyzer's output read-only — every AST node of the `ProgramFile`,
callee tokens included, is unchanged after `generate` returns.  On
macOS the lowering of each `Call` expression rewrites the shared node's
callee token to `_` prepended to its old value (second conjunct shows
the rewritten callee on the lowered node). -/
theorem generate_win_reads_ast_readonly (program : ProgramFile) :
    (generate program Platform.win).2.2.2 = program
      ∧ ∀ (f : String) (args : List Expr) (st : GenState),
          ∃ args2, (genExpr Platform.mac (Expr.call f args) st).2.2.2
            = Expr.call ("_" ++ f) args2 := by
  constructor
  · rcases hD : genDefs Platform.win program.definitions GenState.init
      with ⟨defIns, st1, defs2⟩
    have hd := genDefs_win_id program.definitions GenState.init
    rw [hD] at hd; simp at hd
    rcases hS : genStmts Platform.win program.statements st1 with ⟨mainBody, st2, stmts2⟩
    have hs := genStmts_win_id program.statements st1
    rw [hS] at hs; simp at hs
    simp [generate, hD, hS, hd, hs]
  · intro f args st
    rcases hF : genArgsFwd Platform.mac args (argumentRegisters Platform.mac) st
      with ⟨regIns, st1, argsA⟩
    rcases hR : genArgsRev Platform.mac
        (args.drop (argumentRegisters Platform.mac).length) st1
      with ⟨stackIns, cnt, st2, leftoverA⟩
    exact ⟨argsA ++ leftoverA, by simp [genExpr, hF, hR]⟩

/-! ## Stack allocation layout (claim C10)

`allocateStack` hands out the running cumulative offset; the ghost
`allocTrace` records each call's returned offset and byte count.
`AllocChain c δ c2` says the trace block `δ` is exactly a run of such
calls taking the cursor from `c` to `c2`: each entry's offset is the
previous cumulative value plus its (positive) size. -/

/-- Every IR size is at least one byte. -/
theorem Size.toNat_pos (s : Size) : 1 ≤ s.toNat := by
  cases s <;> simp [Size.toNat]

/-- A block of consecutive `allocateStack` results from cursor `c` to
cursor `c2`. -/
def AllocChain (c : Int) : List (Int × Nat) → Int → Prop
  | [], c2 => c2 = c
  | x :: rest, c2 => 1 ≤ x.2 ∧ x.1 = c + x.2 ∧ AllocChain (c + x.2) rest c2

theorem AllocChain.le {c c2 : Int} : ∀ {δ : List (Int × Nat)},
    AllocChain c δ c2 → c ≤ c2
  | [], h => by simp [AllocChain] at h; omega
  | x :: rest, h => by
      obtain ⟨h1, h2, h3⟩ := h
      have := AllocChain.le h3
      omega

theorem AllocChain.append {c m c2 : Int} : ∀ {δ1 δ2 : List (Int × Nat)},
    AllocChain c δ1 m → AllocChain m δ2 c2 → AllocChain c (δ1 ++ δ2) c2
  | [], δ2, h1, h2 => by simp [AllocChain] at h1; subst h1; simpa using h2
  | x :: rest, δ2, h1, h2 => by
      obtain ⟨ha, hb, hc⟩ := h1
      exact ⟨ha, hb, AllocChain.append hc h2⟩

/-- Every allocation in a chain sits strictly above the starting cursor
and at or below the final cursor, and its byte range `[offset - size,
offset)` starts at or above the starting cursor. -/
theorem AllocChain.mem {c c2 : Int} : ∀ {δ : List (Int × Nat)},
    AllocChain c δ c2 → ∀ x ∈ δ, c < x.1 ∧ x.1 ≤ c2 ∧ c ≤ x.1 - (x.2 : Int)
  | [], _, x, hx => by simp at hx
  | y :: rest, h, x, hx => by
      obtain ⟨h1, h2, h3⟩ := h
      rcases List.mem_cons.mp hx with hEq | hMem
      · subst hEq
        have := AllocChain.le h3
        constructor
        · omega
        · constructor <;> omega
      · have := AllocChain.mem h3 x hMem
        constructor
        · omega
        · constructor <;> omega

/-- Distinct allocations in one chain occupy disjoint byte ranges: an
earlier allocation's range ends at or before a later one's begins. -/
theorem AllocChain.pairwise {c c2 : Int} : ∀ {δ : List (Int × Nat)},
    AllocChain c δ c2 → δ.Pairwise (fun a b => a.1 ≤ b.1 - (b.2 : Int))
  | [], _ => List.Pairwise.nil
  | x :: rest, h => by
      obtain ⟨h1, h2, h3⟩ := h
      refine List.Pairwise.cons ?_ (AllocChain.pairwise h3)
      intro b hb
      have := AllocChain.mem h3 b hb
      omega

/-- The generator state `st2` extends `st` by one block of consecutive
allocations: the trace grows by a chain that carries the cursor from
`st`'s value to `st2`'s.  Every lowering step satisfies this. -/
def StChain (st st2 : GenState) : Prop :=
  ∃ δ, st2.allocTrace = st.allocTrace ++ δ
    ∧ AllocChain st.currentStackIndex δ st2.currentStackIndex

theorem StChain.refl (st : GenState) : StChain st st :=
  ⟨[], by simp, by simp [AllocChain]⟩

theorem StChain.of_eq {st st2 : GenState} (h1 : st2.allocTrace = st.allocTrace)
    (h2 : st2.currentStackIndex = st.currentStackIndex) : StChain st st2 :=
  ⟨[], by simp [h1], by simp [AllocChain, h2]⟩

theorem StChain.trans {a b c : GenState} (h1 : StChain a b) (h2 : StChain b c) :
    StChain a c := by
  obtain ⟨δ1, e1, c1⟩ := h1
  obtain ⟨δ2, e2, c2⟩ := h2
  exact ⟨δ1 ++ δ2, by simp [e2, e1], AllocChain.append c1 c2⟩

/-- One `allocateStack` call: the returned offset is the old cursor plus
the size, the cursor strictly increases, and the state extends by the
one-entry chain. -/
theorem allocateStack_step (s : Size) (st : GenState) :
    (allocateStack s st).1 = st.currentStackIndex + s.toNat
      ∧ st.currentStackIndex < (allocateStack s st).2.currentStackIndex
      ∧ StChain st (allocateStack s st).2 := by
  refine ⟨rfl, ?_, ?_⟩
  · have := Size.toNat_pos s
    simp [allocateStack]
    omega
  · refine ⟨[(st.currentStackIndex + s.toNat, s.toNat)], by simp [allocateStack], ?_⟩
    exact ⟨Size.toNat_pos s, rfl, by simp [AllocChain, allocateStack]⟩

mutual

/-- Every expression lowering extends the state by one consecutive
allocation block (the ghost trace grows by a chain carrying the cursor
from the incoming to the outgoing value). -/
theorem genExpr_st : ∀ (p : Platform) (e : Expr) (st : GenState),
    StChain st (genExpr p e st).2.2.1
  | p, Expr.intLit v, st => by
      simp [genExpr]; exact StChain.refl st
  | p, Expr.unary op sub, st => by
      rcases hA : allocateStack Size.dword st with ⟨off, st1⟩
      have c1 : StChain st st1 := by
        have := (allocateStack_step Size.dword st).2.2; rw [hA] at this; exact this
      rcases hS : genExpr p sub st1 with ⟨res, ins, st2, sub2⟩
      have c2 : StChain st1 st2 := by
        have := genExpr_st p sub st1; rw [hS] at this; exact this
      simp [genExpr, hA, hS]
      exact c1.trans c2
  | p, Expr.binary op l r, st => by
      cases op <;> first
        | -- arithmetic / relational: slot, left, right
          (rcases hA : allocateStack Size.dword st with ⟨off, st1⟩
           have c1 : StChain st st1 := by
             have := (allocateStack_step Size.dword st).2.2; rw [hA] at this; exact this
           rcases hL : genExpr p l st1 with ⟨lres, lins, st2, l2⟩
           have c2 : StChain st1 st2 := by
             have := genExpr_st p l st1; rw [hL] at this; exact this
           rcases hR : genExpr p r st2 with ⟨rres, rins, st3, r2⟩
           have c3 : StChain st2 st3 := by
             have := genExpr_st p r st2; rw [hR] at this; exact this
           simp [genExpr, hA, hL, hR]
           exact (c1.trans c2).trans c3
           done)
        | -- logical: slot, comparison index, left, right
          (rcases hA : allocateStack Size.dword st with ⟨off, st1⟩
           have c1 : StChain st st1 := by
             have := (allocateStack_step Size.dword st).2.2; rw [hA] at this; exact this
           rcases hI : genComparisonIndex st1 with ⟨idx, st1b⟩
           have cI : StChain st1 st1b := by
             have h := congrArg Prod.snd hI
             simp only at h
             rw [← h]
             exact StChain.of_eq rfl rfl
           rcases hL : genExpr p l st1b with ⟨lres, lins, st2, l2⟩
           have c2 : StChain st1b st2 := by
             have := genExpr_st p l st1b; rw [hL] at this; exact this
           rcases hR : genExpr p r st2 with ⟨rres, rins, st3, r2⟩
           have c3 : StChain st2 st3 := by
             have := genExpr_st p r st2; rw [hR] at this; exact this
           simp [genExpr, hA, hI, hL, hR]
           exact ((c1.trans cI).trans c2).trans c3
           done)
        | -- division: right, slot, left
          (rcases hR : genExpr p r st with ⟨rres, rins, st1, r2⟩
           have c1 : StChain st st1 := by
             have := genExpr_st p r st; rw [hR] at this; exact this
           rcases hA : allocateStack Size.dword st1 with ⟨off, st2⟩
           have c2 : StChain st1 st2 := by
             have := (allocateStack_step Size.dword st1).2.2; rw [hA] at this; exact this
           rcases hL : genExpr p l st2 with ⟨lres, lins, st3, l2⟩
           have c3 : StChain st2 st3 := by
             have := genExpr_st p l st2; rw [hL] at this; exact this
           simp [genExpr, hR, hA, hL]
           exact (c1.trans c2).trans c3
           done)
  | p, Expr.ident name, st => by
      simp [genExpr]; exact StChain.refl st
  | p, Expr.call f args, st => by
      rcases hF : genArgsFwd p args (argumentRegisters p) st with ⟨regIns, st1, argsA⟩
      have c1 : StChain st st1 := by
        have := genArgsFwd_st p args (argumentRegisters p) st
        rw [hF] at this; exact this
      rcases hR : genArgsRev p (args.drop (argumentRegisters p).length) st1
        with ⟨stackIns, cnt, st2, lo⟩
      have c2 : StChain st1 st2 := by
        have := genArgsRev_st p (args.drop (argumentRegisters p).length) st1
        rw [hR] at this; exact this
      simp [genExpr, hF, hR]
      exact c1.trans c2
  | p, Expr.assign l r, st => by
      rcases hR : genExpr p r st with ⟨rres, rins, st1, r2⟩
      have c1 : StChain st st1 := by
        have := genExpr_st p r st; rw [hR] at this; exact this
      rcases hL : genExpr p l st1 with ⟨lres, lins, st2, l2⟩
      have c2 : StChain st1 st2 := by
        have := genExpr_st p l st1; rw [hL] at this; exact this
      simp [genExpr, hR, hL]
      exact c1.trans c2
termination_by p e _ => sizeOf e
decreasing_by
  all_goals simp_wf <;> first
    | omega
    | (have hsz := sizeOf_drop_le args (argumentRegisters p).length; omega)

/-- The register-argument loop extends the state by a chain. -/
theorem genArgsFwd_st : ∀ (p : Platform) (args : List Expr) (regs : List Reg)
    (st : GenState), StChain st (genArgsFwd p args regs st).2.1
  | p, a :: as, r :: rs, st => by
      rcases hE : genExpr p a st with ⟨res, ins, st1, a2⟩
      have c1 : StChain st st1 := by
        have := genExpr_st p a st; rw [hE] at this; exact this
      rcases hF : genArgsFwd p as rs st1 with ⟨ins2, st2, as2⟩
      have c2 : StChain st1 st2 := by
        have := genArgsFwd_st p as rs st1; rw [hF] at this; exact this
      simp [genArgsFwd, hE, hF]
      exact c1.trans c2
  | p, [], [], st => by simp [genArgsFwd]; exact StChain.refl st
  | p, a :: as, [], st => by simp [genArgsFwd]; exact StChain.refl st
  | p, [], r :: rs, st => by simp [genArgsFwd]; exact StChain.refl st
termination_by p args _ _ => sizeOf args
decreasing_by all_goals simp_wf <;> omega

/-- The overflow-argument loop extends the state by a chain. -/
theorem genArgsRev_st : ∀ (p : Platform) (xs : List Expr) (st : GenState),
    StChain st (genArgsRev p xs st).2.2.1
  | p, [], st => by simp [genArgsRev]; exact StChain.refl st
  | p, x :: rest, st => by
      rcases hT : genArgsRev p rest st with ⟨ins1, c1n, st1, rest2⟩
      have c1 : StChain st st1 := by
        have := genArgsRev_st p rest st; rw [hT] at this; exact this
      rcases hE : genExpr p x st1 with ⟨res, ins2, st2, x2⟩
      have c2 : StChain st1 st2 := by
        have := genExpr_st p x st1; rw [hE] at this; exact this
      simp [genArgsRev, hT, hE]
      exact c1.trans c2
termination_by p xs _ => sizeOf xs
decreasing_by all_goals simp_wf <;> omega

/-- Every statement lowering extends the state by one consecutive
allocation block. -/
theorem genStmt_st : ∀ (p : Platform) (s : Stmt) (st : GenState),
    StChain st (genStmt p s st).2.1
  | p, Stmt.ret e, st => by
      rcases hE : genExpr p e st with ⟨res, ins, st1, e2⟩
      have c1 : StChain st st1 := by
        have := genExpr_st p e st; rw [hE] at this; exact this
      simp [genStmt, hE]
      exact c1
  | p, Stmt.compound xs, st => by
      rcases hS : genStmts p xs st with ⟨ins, st1, xs2⟩
      have c1 : StChain st st1 := by
        have := genStmts_st p xs st; rw [hS] at this; exact this
      simp [genStmt, hS]
      exact c1
  | p, Stmt.varDef name ty (some e), st => by
      rcases hA : allocateStack (getTypeSize ty) st with ⟨off, st1⟩
      have c1 : StChain st st1 := by
        have := (allocateStack_step (getTypeSize ty) st).2.2; rw [hA] at this; exact this
      have cB : StChain st1 (st1.bindVar name (Operand.temp off (getTypeSize ty))) :=
        StChain.of_eq rfl rfl
      rcases hE : genExpr p e (st1.bindVar name (Operand.temp off (getTypeSize ty)))
        with ⟨res, ins, st2, e2⟩
      have c2 : StChain (st1.bindVar name (Operand.temp off (getTypeSize ty))) st2 := by
        have := genExpr_st p e (st1.bindVar name (Operand.temp off (getTypeSize ty)))
        rw [hE] at this; exact this
      simp [genStmt, hA, hE]
      exact (c1.trans cB).trans c2
  | p, Stmt.varDef name ty none, st => by
      rcases hA : allocateStack (getTypeSize ty) st with ⟨off, st1⟩
      have c1 : StChain st st1 := by
        have := (allocateStack_step (getTypeSize ty) st).2.2; rw [hA] at this; exact this
      have cB : StChain st1 (st1.bindVar name (Operand.temp off (getTypeSize ty))) :=
        StChain.of_eq rfl rfl
      simp [genStmt, hA]
      exact c1.trans cB
  | p, Stmt.exprStmt e, st => by
      rcases hE : genExpr p e st with ⟨res, ins, st1, e2⟩
      have c1 : StChain st st1 := by
        have := genExpr_st p e st; rw [hE] at this; exact this
      simp [genStmt, hE]
      exact c1
  | p, Stmt.ifS cond thenB (some elseB), st => by
      rcases hI : genIfIndex st with ⟨idx, st1⟩
      have cI : StChain st st1 := by
        have h := congrArg Prod.snd hI
        simp only at h
        rw [← h]
        exact StChain.of_eq rfl rfl
      rcases hC : genExpr p cond st1 with ⟨cres, cins, st2, cond2⟩
      have c1 : StChain st1 st2 := by
        have := genExpr_st p cond st1; rw [hC] at this; exact this
      rcases hT : genStmt p thenB st2 with ⟨tins, st3, then2⟩
      have c2 : StChain st2 st3 := by
        have := genStmt_st p thenB st2; rw [hT] at this; exact this
      rcases hEl : genStmt p elseB st3 with ⟨eins, st4, else2⟩
      have c3 : StChain st3 st4 := by
        have := genStmt_st p elseB st3; rw [hEl] at this; exact this
      simp [genStmt, hI, hC, hT, hEl]
      exact ((cI.trans c1).trans c2).trans c3
  | p, Stmt.ifS cond thenB none, st => by
      rcases hI : genIfIndex st with ⟨idx, st1⟩
      have cI : StChain st st1 := by
        have h := congrArg Prod.snd hI
        simp only at h
        rw [← h]
        exact StChain.of_eq rfl rfl
      rcases hC : genExpr p cond st1 with ⟨cres, cins, st2, cond2⟩
      have c1 : StChain st1 st2 := by
        have := genExpr_st p cond st1; rw [hC] at this; exact this
      rcases hT : genStmt p thenB st2 with ⟨tins, st3, then2⟩
      have c2 : StChain st2 st3 := by
        have := genStmt_st p thenB st2; rw [hT] at this; exact this
      simp [genStmt, hI, hC, hT]
      exact (cI.trans c1).trans c2
  | p, Stmt.loop body, st => by
      rcases hI : genIfIndex st with ⟨idx, st1⟩
      have cI : StChain st st1 := by
        have h := congrArg Prod.snd hI
        simp only at h
        rw [← h]
        exact StChain.of_eq rfl rfl
      rcases hB : genStmt p body
          { st1 with loopStack := (".LS" ++ toString idx, ".LE" ++ toString idx)
              :: st1.loopStack } with ⟨bins, st3, body2⟩
      have c1 : StChain st1 st3 := by
        have := genStmt_st p body
          { st1 with loopStack := (".LS" ++ toString idx, ".LE" ++ toString idx)
              :: st1.loopStack }
        rw [hB] at this
        exact (StChain.of_eq rfl rfl).trans this
      have c2 : StChain st3 { st3 with loopStack := st3.loopStack.tail } :=
        StChain.of_eq rfl rfl
      simp [genStmt, hI, hB]
      exact (cI.trans c1).trans c2
  | p, Stmt.whileS cond body, st => by
      rcases hI : genIfIndex st with ⟨idx, st1⟩
      have cI : StChain st st1 := by
        have h := congrArg Prod.snd hI
        simp only at h
        rw [← h]
        exact StChain.of_eq rfl rfl
      rcases hC : genExpr p cond
          { st1 with loopStack := (".LS" ++ toString idx, ".LE" ++ toString idx)
              :: st1.loopStack } with ⟨cres, cins, st2, cond2⟩
      have c1 : StChain st1 st2 := by
        have := genExpr_st p cond
          { st1 with loopStack := (".LS" ++ toString idx, ".LE" ++ toString idx)
              :: st1.loopStack }
        rw [hC] at this
        exact (StChain.of_eq rfl rfl).trans this
      rcases hB : genStmt p body st2 with ⟨bins, st4, body2⟩
      have c2 : StChain st2 st4 := by
        have := genStmt_st p body st2; rw [hB] at this; exact this
      have c3 : StChain st4 { st4 with loopStack := st4.loopStack.tail } :=
        StChain.of_eq rfl rfl
      simp [genStmt, hI, hC, hB]
      exact ((cI.trans c1).trans c2).trans c3
  | p, Stmt.breakS, st => by simp [genStmt]; exact StChain.refl st
  | p, Stmt.continueS, st => by simp [genStmt]; exact StChain.refl st
  | p, Stmt.nullS, st => by simp [genStmt]; exact StChain.refl st
termination_by p s _ => sizeOf s
decreasing_by all_goals simp_wf <;> omega

/-- Statement lists extend the state by a chain. -/
theorem genStmts_st : ∀ (p : Platform) (l : List Stmt) (st : GenState),
    StChain st (genStmts p l st).2.1
  | p, [], st => by simp [genStmts]; exact StChain.refl st
  | p, x :: rest, st => by
      rcases hX : genStmt p x st with ⟨ins1, st1, x2⟩
      have c1 : StChain st st1 := by
        have := genStmt_st p x st; rw [hX] at this; exact this
      rcases hR : genStmts p rest st1 with ⟨ins2, st2, rest2⟩
      have c2 : StChain st1 st2 := by
        have := genStmts_st p rest st1; rw [hR] at this; exact this
      simp [genStmts, hX, hR]
      exact c1.trans c2
termination_by p l _ => sizeOf l
decreasing_by all_goals simp_wf <;> omega

end

/-- The register-parameter loop extends the state by a chain (one
allocation per spilled parameter). -/
theorem genParamRegs_st : ∀ (params : List Param) (regs : List Reg) (st : GenState),
    StChain st (genParamRegs params regs st).2
  | prm :: rest, r :: rs, st => by
      rcases hA : allocateStack (getTypeSize prm.ty) st with ⟨off, st1⟩
      have c1 : StChain st st1 := by
        have := (allocateStack_step (getTypeSize prm.ty) st).2.2
        rw [hA] at this; exact this
      have cB : StChain st1 (st1.bindVar prm.name (Operand.temp off (getTypeSize prm.ty))) :=
        StChain.of_eq rfl rfl
      rcases hR : genParamRegs rest rs
          (st1.bindVar prm.name (Operand.temp off (getTypeSize prm.ty))) with ⟨ins, st3⟩
      have c2 : StChain (st1.bindVar prm.name (Operand.temp off (getTypeSize prm.ty))) st3 := by
        have := genParamRegs_st rest rs
          (st1.bindVar prm.name (Operand.temp off (getTypeSize prm.ty)))
        rw [hR] at this; exact this
      simp [genParamRegs, hA, hR]
      exact (c1.trans cB).trans c2
  | _ :: _, [], st => by simp [genParamRegs]; exact StChain.refl st
  | [], [], st => by simp [genParamRegs]; exact StChain.refl st
  | [], _ :: _, st => by simp [genParamRegs]; exact StChain.refl st

/-- The overflow-parameter loop touches only the local map: the
allocation trace and the cursor are unchanged. -/
theorem genParamOverflow_pure : ∀ (olist : List Param) (j : Nat) (st : GenState),
    (genParamOverflow olist j st).allocTrace = st.allocTrace
      ∧ (genParamOverflow olist j st).currentStackIndex = st.currentStackIndex
  | [], _, st => ⟨rfl, rfl⟩
  | prm :: rest, j, st => by
      have ih := genParamOverflow_pure rest (j + 1) st
      simp [genParamOverflow, GenState.bindVar, ih.1, ih.2]

/-- Every binding the overflow-parameter loop adds maps a parameter to
a `Temp` with a strictly negative offset (`-(j + 2) * 8`). -/
theorem genParamOverflow_binds : ∀ (olist : List Param) (j : Nat) (st : GenState),
    ∃ binds, (genParamOverflow olist j st).localVarMap = binds ++ st.localVarMap
      ∧ ∀ b ∈ binds, ∃ (off : Int) (sz : Size), b.2 = Operand.temp off sz ∧ off < 0
  | [], _, st => ⟨[], by simp [genParamOverflow], by simp⟩
  | prm :: rest, j, st => by
      obtain ⟨binds, h1, h2⟩ := genParamOverflow_binds rest (j + 1) st
      refine ⟨(prm.name, Operand.temp (-(((j : Int) + 2) * 8)) (getTypeSize prm.ty))
          :: binds, ?_, ?_⟩
      · simp [genParamOverflow, GenState.bindVar, h1]
      · intro b hb
        rcases List.mem_cons.mp hb with hEq | hmem
        · subst hEq
          exact ⟨_, _, rfl, by omega⟩
        · exact h2 b hmem

/-- C10: within the lowering of a single function, `allocateStack` is
strictly increasing (each call returns the previous cumulative offset
plus the requested size, first conjunct); the per-function allocation
trace is one chain starting from cursor 0, so any two Temps created by
distinct `allocateStack` calls occupy disjoint byte ranges (the earlier
range `[o₁-s₁, o₁)` ends at or before the later `[o₂-s₂, o₂)` begins);
the emitted `FunctionDefinition`'s `stack_alloc` equals the final
cursor, which bounds every allocated offset from above, and every
allocated offset is strictly positive; Temps at negative offsets are
created only by the overflow-parameter loop (third conjunct). -/
theorem allocateStack_layout (p : Platform) (name : String) (params : List Param)
    (body : Stmt) (st : GenState) :
    (∀ (s : Size) (st1 : GenState),
        (allocateStack s st1).1 = st1.currentStackIndex + s.toNat
          ∧ st1.currentStackIndex < (allocateStack s st1).2.currentStackIndex)
      ∧ (∃ δ binstrs,
          (genFuncDef p name params body st).2.1.allocTrace = st.allocTrace ++ δ
            ∧ AllocChain 0 δ (genFuncDef p name params body st).2.1.currentStackIndex
            ∧ (genFuncDef p name params body st).1
                = Instr.funcDef name binstrs
                    (genFuncDef p name params body st).2.1.currentStackIndex
            ∧ (∀ x ∈ δ, 0 < x.1
                ∧ x.1 ≤ (genFuncDef p name params body st).2.1.currentStackIndex
                ∧ 0 ≤ x.1 - (x.2 : Int))
            ∧ δ.Pairwise (fun a b => a.1 ≤ b.1 - (b.2 : Int)))
      ∧ (∀ (olist : List Param) (j : Nat) (st4 : GenState),
          ∃ binds, (genParamOverflow olist j st4).localVarMap = binds ++ st4.localVarMap
            ∧ ∀ b ∈ binds, ∃ (off : Int) (sz : Size),
                b.2 = Operand.temp off sz ∧ off < 0) := by
  refine ⟨fun s st1 => ⟨(allocateStack_step s st1).1, (allocateStack_step s st1).2.1⟩,
    ?_, genParamOverflow_binds⟩
  rcases hP : genParamRegs params (argumentRegisters p) { st with currentStackIndex := 0 }
    with ⟨paramIns, st1⟩
  have c1 : StChain { st with currentStackIndex := 0 } st1 := by
    have := genParamRegs_st params (argumentRegisters p) { st with currentStackIndex := 0 }
    rw [hP] at this; exact this
  have hov := genParamOverflow_pure (params.drop (argumentRegisters p).length) 0 st1
  have c2 : StChain st1
      (if params.length > (argumentRegisters p).length
       then genParamOverflow (params.drop (argumentRegisters p).length) 0 st1
       else st1) := by
    split
    · exact StChain.of_eq hov.1 hov.2
    · exact StChain.refl st1
  rcases hB : genStmt p body
      (if params.length > (argumentRegisters p).length
       then genParamOverflow (params.drop (argumentRegisters p).length) 0 st1
       else st1) with ⟨bins, st3, body2⟩
  have c3 : StChain
      (if params.length > (argumentRegisters p).length
       then genParamOverflow (params.drop (argumentRegisters p).length) 0 st1
       else st1) st3 := by
    have := genStmt_st p body
      (if params.length > (argumentRegisters p).length
       then genParamOverflow (params.drop (argumentRegisters p).length) 0 st1
       else st1)
    rw [hB] at this; exact this
  obtain ⟨δ, hTr, hCh⟩ := (c1.trans c2).trans c3
  have hres1 : (genFuncDef p name params body st).2.1 = st3 := by
    simp [genFuncDef, hP, hB]
  have hres2 : (genFuncDef p name params body st).1
      = Instr.funcDef name
          (paramIns ++ bins
            ++ [Instr.move (Operand.intConst 0) (Operand.register Reg.ax Size.dword) false,
                Instr.ret])
          st3.currentStackIndex := by
    simp [genFuncDef, hP, hB]
  refine ⟨δ, paramIns ++ bins
      ++ [Instr.move (Operand.intConst 0) (Operand.register Reg.ax Size.dword) false,
          Instr.ret], ?_, ?_, ?_, ?_, AllocChain.pairwise hCh⟩
  · rw [hres1]; exact hTr
  · rw [hres1]; exact hCh
  · rw [hres1, hres2]
  · rw [hres1]
    intro x hx
    have hm := AllocChain.mem hCh x hx
    have h0 : ({ st with currentStackIndex := 0 } : GenState).currentStackIndex = 0 := rfl
    rw [h0] at hm
    exact ⟨by omega, by omega, by omega⟩

/-! ## Analyzer claim theorems (C4, C5) -/

/-- A fresh analyzer state: empty tables, both process-wide counters at
zero. -/
def ana0 : AnaState := ⟨[], none, [], [], [], 0, 0, [], []⟩

/-- `i32`, shorthand for the examples. -/
def tyI32 : Ty := Ty.fundamental BasicType.i32

/-- C4 counterexample: the program `{ let x: i32; } { let x: i32; }`
analyzes successfully, yet both locals keep the name `x`: the analyzed
program is *unchanged*, the unique counter is never consulted, and the
two declared locals end up with the same (un-renamed) name — not fresh
`name.k` identifiers, and not pairwise distinct. -/
theorem locals_not_uniqued_counterexample :
    (analyzeProgram (ProgramFile.mk []
        [Stmt.compound [Stmt.varDef "x" tyI32 none],
         Stmt.compound [Stmt.varDef "x" tyI32 none]]) ana0).1 = true
      ∧ (analyzeProgram (ProgramFile.mk []
          [Stmt.compound [Stmt.varDef "x" tyI32 none],
           Stmt.compound [Stmt.varDef "x" tyI32 none]]) ana0).2.2
        = ProgramFile.mk []
            [Stmt.compound [Stmt.varDef "x" tyI32 none],
             Stmt.compound [Stmt.varDef "x" tyI32 none]]
      ∧ (analyzeProgram (ProgramFile.mk []
          [Stmt.compound [Stmt.varDef "x" tyI32 none],
           Stmt.compound [Stmt.varDef "x" tyI32 none]]) ana0).2.1.uniqueIndex = 0
      ∧ (analyzeProgram (ProgramFile.mk []
          [Stmt.compound [Stmt.varDef "x" tyI32 none],
           Stmt.compound [Stmt.varDef "x" tyI32 none]]) ana0).2.1.errors = [] := by
  refine ⟨rfl, rfl, rfl, rfl⟩

/-- `bindTop` never touches the unique counter (either branch of its
match). -/
theorem bindTop_uniqueIndex (st : AnaState) (n : String) (e : SymbolEntry) :
    (bindTop st n e).uniqueIndex = st.uniqueIndex := by
  unfold bindTop
  cases st.localStack <;> rfl

/-- The names the spec's uniquing rule assigns: parameter `i` of the
list becomes `name.(base + i)` (spec §3 "Uniquing": `name.k` identifiers
drawn from the monotonically increasing counter). -/
def specUniqueNames (base : Nat) : List Param → List String
  | [] => []
  | q :: rest => (q.name ++ "." ++ toString base) :: specUniqueNames (base + 1) rest

/-- `analyzeParameters` renames parameters and only parameters: with no
duplicates, it succeeds, rewrites parameter `i`'s token to
`name.(uniqueIndex + i)`, and advances the process-wide counter by the
parameter count. -/
theorem anaParams_renames : ∀ (ps : List Param) (cl : List String) (st : AnaState),
    (∀ q ∈ ps, q.name ∉ cl) → ps.Pairwise (fun a b => a.name ≠ b.name) →
    (anaParams ps cl st).1 = true
      ∧ ((anaParams ps cl st).2.2).map (fun q => q.name)
          = specUniqueNames st.uniqueIndex ps
      ∧ (anaParams ps cl st).2.1.uniqueIndex = st.uniqueIndex + ps.length
  | [], cl, st, _, _ => by simp [anaParams, specUniqueNames]
  | prm :: rest, cl, st, h1, h2 => by
      have hni : prm.name ∉ cl := h1 prm (List.mem_cons_self _ _)
      have hcont : cl.contains prm.name = false := by simpa using hni
      have hIH := anaParams_renames rest (cl ++ [prm.name])
        (bindTop (createUnique (if findNameGlobal st prm.name
            then st.reportWarning ("Parameter '" ++ prm.name ++ "' shadows a global name")
            else st) prm.name).2 prm.name
          ⟨(createUnique (if findNameGlobal st prm.name
            then st.reportWarning ("Parameter '" ++ prm.name ++ "' shadows a global name")
            else st) prm.name).1, prm.ty⟩)
        (fun q hq => by
          simp only [List.mem_append, List.mem_singleton]
          rintro (hc | hc)
          · exact h1 q (List.mem_cons_of_mem _ hq) hc
          · exact (List.rel_of_pairwise_cons h2 hq) hc.symm)
        h2.of_cons
      have hub : (bindTop (createUnique (if findNameGlobal st prm.name
            then st.reportWarning ("Parameter '" ++ prm.name ++ "' shadows a global name")
            else st) prm.name).2 prm.name
          ⟨(createUnique (if findNameGlobal st prm.name
            then st.reportWarning ("Parameter '" ++ prm.name ++ "' shadows a global name")
            else st) prm.name).1, prm.ty⟩).uniqueIndex = st.uniqueIndex + 1 := by
        rw [bindTop_uniqueIndex]
        split <;> rfl
      have hnew : (createUnique (if findNameGlobal st prm.name
            then st.reportWarning ("Parameter '" ++ prm.name ++ "' shadows a global name")
            else st) prm.name).1 = prm.name ++ "." ++ toString st.uniqueIndex := by
        split <;> rfl
      rw [hub] at hIH
      have hn : ¬(cl.contains prm.name = true) := by simpa using hni
      refine ⟨?_, ?_, ?_⟩
      · simp only [anaParams]
        rw [if_neg hn]
        simp only [hIH.1]
      · simp only [anaParams]
        rw [if_neg hn]
        rw [hnew] at hIH
        simp only [specUniqueNames, List.map_cons, hnew, hIH.2.1]
      · simp only [anaParams]
        rw [if_neg hn]
        simp only [hIH.2.2, List.length_cons]
        omega

/-- Defining a local variable whose name resolves nowhere in the local
stack stores the symbol under its *original* name, leaves the token and
the unique counter untouched, and succeeds. -/
theorem anaStmt_varDef_fresh (name : String) (ty : Ty) (st : AnaState)
    (h : findNameLocal st name = none) :
    (anaStmt (Stmt.varDef name ty none) st).1 = true
      ∧ (anaStmt (Stmt.varDef name ty none) st).2.2 = Stmt.varDef name ty none
      ∧ (anaStmt (Stmt.varDef name ty none) st).2.1 = bindTop st name ⟨name, ty⟩ := by
  have hb : anaDefVariable false name ty none st
      = (true, bindTop st name ⟨name, ty⟩, ty, none) := by
    simp only [anaDefVariable, h, Bool.false_eq_true, if_false]
  have hs : anaStmt (Stmt.varDef name ty none) st
      = ((anaDefVariable false name ty none st).1,
         (anaDefVariable false name ty none st).2.1,
         Stmt.varDef name (anaDefVariable false name ty none st).2.2.1
           (anaDefVariable false name ty none st).2.2.2) := rfl
  rw [hs, hb]
  exact ⟨rfl, rfl, rfl⟩

/-- C4 amended: only parameters are α-renamed.  `analyzeParameters`
renames parameter `i` to `name.(k₀ + i)` from the process-wide counter
and advances the counter (first three conjuncts); a local variable
definition stores its symbol under the original name with the counter
untouched — no `name.k` is produced for locals (last conjunct). -/
theorem uniquing_renames_parameters_only (ps : List Param) (cl : List String)
    (st : AnaState) (hcl : ∀ q ∈ ps, q.name ∉ cl)
    (hdist : ps.Pairwise (fun a b => a.name ≠ b.name)) :
    (anaParams ps cl st).1 = true
      ∧ ((anaParams ps cl st).2.2).map (fun q => q.name)
          = specUniqueNames st.uniqueIndex ps
      ∧ (anaParams ps cl st).2.1.uniqueIndex = st.uniqueIndex + ps.length
      ∧ ∀ (name : String) (ty : Ty) (st2 : AnaState),
          findNameLocal st2 name = none →
            (anaStmt (Stmt.varDef name ty none) st2).1 = true
              ∧ (anaStmt (Stmt.varDef name ty none) st2).2.2 = Stmt.varDef name ty none
              ∧ (anaStmt (Stmt.varDef name ty none) st2).2.1
                  = bindTop st2 name ⟨name, ty⟩ := by
  obtain ⟨a, b, c⟩ := anaParams_renames ps cl st hcl hdist
  exact ⟨a, b, c, fun name ty st2 h => anaStmt_varDef_fresh name ty st2 h⟩

/-- C4 witness: two parameters `a b : i32` from a fresh state are
renamed to `a.0` and `b.1`, the counter ends at 2, and a fresh local
`x` keeps its name. -/
theorem uniquing_renames_parameters_only_witness :
    (anaParams [⟨"a", tyI32⟩, ⟨"b", tyI32⟩] [] ana0).1 = true
      ∧ ((anaParams [⟨"a", tyI32⟩, ⟨"b", tyI32⟩] [] ana0).2.2).map (fun q => q.name)
          = specUniqueNames ana0.uniqueIndex [⟨"a", tyI32⟩, ⟨"b", tyI32⟩]
      ∧ (anaParams [⟨"a", tyI32⟩, ⟨"b", tyI32⟩] [] ana0).2.1.uniqueIndex
          = ana0.uniqueIndex + 2
      ∧ ∀ (name : String) (ty : Ty) (st2 : AnaState),
          findNameLocal st2 name = none →
            (anaStmt (Stmt.varDef name ty none) st2).1 = true
              ∧ (anaStmt (Stmt.varDef name ty none) st2).2.2 = Stmt.varDef name ty none
              ∧ (anaStmt (Stmt.varDef name ty none) st2).2.1
                  = bindTop st2 name ⟨name, ty⟩ :=
  uniquing_renames_parameters_only [⟨"a", tyI32⟩, ⟨"b", tyI32⟩] [] ana0
    (by simp) (by simp)

/-- C5 counterexample: a local variable whose name appears only in an
*enclosing*, non-top scope of the local stack is rejected.  In
`{ let x: i32; { let x: i32; } }` the inner definition sees `x` only in
the outer scope, yet `analyzeDefinitionVariable` reports
"already defined in local scope" because `findNameLocal` scans every
level of the stack, not just the top map. -/
theorem outer_scope_shadowing_rejected :
    (anaStmt (Stmt.compound
        [Stmt.varDef "x" tyI32 none,
         Stmt.compound [Stmt.varDef "x" tyI32 none]]) ana0).1 = false
      ∧ (anaStmt (Stmt.compound
          [Stmt.varDef "x" tyI32 none,
           Stmt.compound [Stmt.varDef "x" tyI32 none]]) ana0).2.1.errors
          = ["Variable 'x' is already defined in local scope"] :=
  ⟨rfl, rfl⟩

/-- `bindTop` never touches the error list. -/
theorem bindTop_errors (st : AnaState) (n : String) (e : SymbolEntry) :
    (bindTop st n e).errors = st.errors := by
  unfold bindTop; split <;> rfl

/-- `bindTop` never touches the warning list. -/
theorem bindTop_warnings (st : AnaState) (n : String) (e : SymbolEntry) :
    (bindTop st n e).warnings = st.warnings := by
  unfold bindTop; split <;> rfl

/-- The descending loop of `findNameLocal` hits iff some scope of the
remaining stack contains the name. -/
theorem findNameLocal_go_isSome (name : String) :
    ∀ (ls : List Scope) (d : Nat),
      (findNameLocal.go name ls d).isSome = true
        ↔ ∃ sc ∈ ls, (scopeFind sc name).isSome = true
  | [], d => by simp [findNameLocal.go]
  | sc :: rest, d => by
      by_cases h : (scopeFind sc name).isSome = true
      · simp [findNameLocal.go, h]
      · simp only [findNameLocal.go, h, if_neg, Bool.false_eq_true, if_false]
        rw [findNameLocal_go_isSome name rest (d + 1)]
        simp [h]

/-- C5: analyzing a local variable definition reports the
"already defined in local scope" error exactly when the name is present
in *some* scope of the local stack — any level, not only the top map —
while the error path of a global definition fires exactly on a hit in
the global table, and a parameter shadowing a global name gets a
warning appended with no error. -/
theorem local_redefinition_checks_all_scopes :
    ∀ (name : String) (ty : Ty) (st : AnaState),
      ((anaDefVariable false name ty none st).1 = false
          ↔ (findNameLocal st name).isSome = true)
      ∧ ((findNameLocal st name).isSome = true
          ↔ ∃ sc ∈ st.localStack, (scopeFind sc name).isSome = true)
      ∧ ((findNameLocal st name).isSome = true →
          (anaDefVariable false name ty none st).2.1.errors
            = st.errors ++ ["Variable '" ++ name ++ "' is already defined in local scope"])
      ∧ ((anaDefVariable true name ty none st).1 = false
          ↔ findNameGlobal st name = true)
      ∧ (findNameGlobal st name = true →
          (anaParams [⟨name, ty⟩] [] st).1 = true
            ∧ (anaParams [⟨name, ty⟩] [] st).2.1.errors = st.errors
            ∧ (anaParams [⟨name, ty⟩] [] st).2.1.warnings
                = st.warnings ++ ["Parameter '" ++ name ++ "' shadows a global name"]) := by
  intro name ty st
  refine ⟨?_, ?_, ?_, ?_, ?_⟩
  · rcases h : findNameLocal st name with _ | d <;>
      simp [anaDefVariable, h]
  · exact findNameLocal_go_isSome name st.localStack 0
  · intro h
    rcases h2 : findNameLocal st name with _ | d
    · rw [h2] at h; simp at h
    · simp [anaDefVariable, h2, AnaState.reportError]
  · rcases h : findNameGlobal st name with _ | _ <;>
      simp [anaDefVariable, h]
  · intro hg
    refine ⟨?_, ?_, ?_⟩ <;>
      simp [anaParams, hg, createUnique, bindTop_errors, bindTop_warnings,
        AnaState.reportWarning]

end Fractal
